import Mathlib

set_option maxHeartbeats 1000000

/-!
Shallow embedding of the ETL pipeline in `vendas_combustivel.py`
(fuel-price CSV ingestion: header detection, per-field normalization,
validation/dedup, chunked replace-then-append load).

Modelling conventions:
* pandas cells are the inductive `Cell`: a raw/normalized string, a decimal
  number `vnum m e` denoting `m / 10 ^ e` (pandas floats printed/parsed in
  plain decimal form), a parsed timestamp `vdate y mo d`, or the missing
  value `vnull` (NaN / NaT / None).
* a pandas DataFrame is a header list plus a list of rows (lists of cells).
* `pd.to_numeric(..., errors="coerce")` is `parseNumL` (sign, digits,
  optional fractional part) with failures becoming `vnull`;
  `pd.to_datetime(..., errors="coerce", dayfirst=True)` is `parseDate`
  (day/month/4-digit-year with calendar validity) with failures `vnull`.
* `.str.normalize("NFKD")` is `nfkdChar`: NFKD fixes every ASCII character;
  the table below covers the Latin accented letters of the feed, any other
  non-ASCII character decomposes to itself (it is removed by the subsequent
  ASCII filter either way).
* `df.dropna(subset=...)` with an absent column raises `KeyError` in pandas;
  `clean_and_transform` returns `Except.error` there, and the surrounding
  `try/except` of `run_pipeline_db` is the `Except.error` branch of `runGo`.
* the chunked CSV reader is modelled as the list of chunk frames handed to
  `run_pipeline_db`; each `df.to_sql(..., if_exists=modo)` call is recorded
  as a `WriteOp`, and `applyWrites` is the destination-table semantics of a
  write list ("replace" drops and recreates, "append" adds rows).
-/

/-- A pandas cell: string, decimal number `m / 10 ^ e`, timestamp, or missing. -/
inductive Cell where
  | vstr (s : String)
  | vnum (m : Int) (e : Nat)
  | vdate (y mo d : Nat)
  | vnull
deriving DecidableEq, Repr

deriving instance DecidableEq for Except

/-- Strip leading and trailing whitespace (Python `str.strip`). -/
def stripL (l : List Char) : List Char :=
  ((l.dropWhile Char.isWhitespace).reverse.dropWhile Char.isWhitespace).reverse

/-- The decimal digit character for `d < 10`. -/
def digitChar (d : Nat) : Char := Char.ofNat (48 + d)

/-- Big-endian decimal digit characters of `n` (empty for `0`). -/
def natDigits (n : Nat) : List Char := ((Nat.digits 10 n).reverse).map digitChar

/-- Decimal string of a natural number, as Python `str` prints it. -/
def natStrL (n : Nat) : List Char := if n = 0 then ['0'] else natDigits n

/-- Numeric value of a digit character. -/
def digitVal (c : Char) : Nat := c.toNat - 48

/-- Value of a big-endian digit-character list. -/
def digitsVal (l : List Char) : Nat := l.foldl (fun a c => 10 * a + digitVal c) 0

/-- Split a character list on a separator character (Python `str.split`). -/
def splitOnChar (sep : Char) : List Char → List (List Char)
  | [] => [[]]
  | c :: r =>
    if c = sep then [] :: splitOnChar sep r
    else
      match splitOnChar sep r with
      | [] => [[c]]
      | h :: t => (c :: h) :: t

/-- Does `needle` occur at the head of `hay`? -/
def headMatch : List Char → List Char → Bool
  | [], _ => true
  | _ :: _, [] => false
  | a :: as, b :: bs => a = b && headMatch as bs

/-- Substring containment (Python `needle in hay`). -/
def containsSub (hay needle : List Char) : Bool :=
  match hay with
  | [] => needle.isEmpty
  | _ :: t => headMatch needle hay || containsSub t needle

/-- Substring containment on strings. -/
def strContains (s pat : String) : Bool := containsSub s.data pat.data

/-- Sign handling of numeric parsing: an optional leading `-` or `+`. -/
def parseSign : List Char → Bool × List Char
  | '-' :: r => (true, r)
  | '+' :: r => (false, r)
  | r => (false, r)

/-- Core of `pd.to_numeric(..., errors="coerce")` on a string: an optional
sign, then digits with at most one decimal point. The result is the pair
`(m, e)` denoting `m / 10 ^ e`. -/
def parseNumL (l : List Char) : Option (Int × Nat) :=
  match splitOnChar '.' (parseSign l).2 with
  | [a] =>
    if !a.isEmpty && a.all Char.isDigit then
      some (if (parseSign l).1 then -(digitsVal a : Int) else (digitsVal a : Int), 0)
    else none
  | [a, b] =>
    if !(a ++ b).isEmpty && a.all Char.isDigit && b.all Char.isDigit then
      some (if (parseSign l).1 then -(digitsVal (a ++ b) : Int) else (digitsVal (a ++ b) : Int),
        b.length)
    else none
  | _ => none

/-- Decimal rendering of a nonnegative `n / 10 ^ e` (Python `str` of a float). -/
def printNumNL (n e : Nat) : List Char :=
  if e = 0 then natStrL n
  else
    let s := natStrL n
    let pad := List.replicate (e + 1 - s.length) '0' ++ s
    pad.take (pad.length - e) ++ '.' :: pad.drop (pad.length - e)

/-- Decimal rendering of `m / 10 ^ e`. -/
def printNumL (m : Int) (e : Nat) : List Char :=
  if m < 0 then '-' :: printNumNL m.natAbs e else printNumNL m.natAbs e

/-- Leap-year rule of the Gregorian calendar. -/
def isLeap (y : Nat) : Bool := (y % 4 == 0 && y % 100 != 0) || y % 400 == 0

/-- Number of days of month `m` of year `y`. -/
def daysInMonth (y m : Nat) : Nat :=
  if m = 2 then (if isLeap y then 29 else 28)
  else if m = 4 ∨ m = 6 ∨ m = 9 ∨ m = 11 then 30 else 31

/-- Core of `pd.to_datetime(..., dayfirst=True, errors="coerce")` on a string:
a `day/month/year` date with a 4-digit year, checked against the calendar.
Returns `(year, month, day)`. -/
def parseDate (s : String) : Option (Nat × Nat × Nat) :=
  match splitOnChar '/' s.data with
  | [d, mo, y] =>
    if !d.isEmpty && d.all Char.isDigit && decide (d.length ≤ 2)
        && !mo.isEmpty && mo.all Char.isDigit && decide (mo.length ≤ 2)
        && y.all Char.isDigit && decide (y.length = 4) then
      if decide (1 ≤ digitsVal mo) && decide (digitsVal mo ≤ 12) && decide (1 ≤ digitsVal d)
          && decide (digitsVal d ≤ daysInMonth (digitsVal y) (digitsVal mo)) then
        some (digitsVal y, digitsVal mo, digitsVal d)
      else none
    else none
  | _ => none

/-- Timestamp rendering, Python `str` of a `pd.Timestamp`. -/
def printDateL (y mo d : Nat) : List Char :=
  (List.replicate (4 - (natStrL y).length) '0' ++ natStrL y) ++ '-' ::
  (List.replicate (2 - (natStrL mo).length) '0' ++ natStrL mo) ++ '-' ::
  (List.replicate (2 - (natStrL d).length) '0' ++ natStrL d) ++ " 00:00:00".data

/-- `.astype(str)` on one cell: Python string rendering (NaN prints "nan"). -/
def pyStrL : Cell → List Char
  | Cell.vstr s => s.data
  | Cell.vnum m e => printNumL m e
  | Cell.vdate y mo d => printDateL y mo d
  | Cell.vnull => ['n', 'a', 'n']

/-- `.str.replace(",", ".", regex=False)`: every comma becomes a dot. -/
def commaToDotL (l : List Char) : List Char :=
  l.map (fun c => if c = ',' then '.' else c)

def nfkdTable : List (Char × List Char) :=
  [('\u00e1', ['a', Char.ofNat 769]), ('\u00e0', ['a', Char.ofNat 768]),
   ('\u00e2', ['a', Char.ofNat 770]), ('\u00e3', ['a', Char.ofNat 771]),
   ('\u00e4', ['a', Char.ofNat 776]), ('\u00e9', ['e', Char.ofNat 769]),
   ('\u00e8', ['e', Char.ofNat 768]), ('\u00ea', ['e', Char.ofNat 770]),
   ('\u00eb', ['e', Char.ofNat 776]), ('\u00ed', ['i', Char.ofNat 769]),
   ('\u00ec', ['i', Char.ofNat 768]), ('\u00ee', ['i', Char.ofNat 770]),
   ('\u00ef', ['i', Char.ofNat 776]), ('\u00f3', ['o', Char.ofNat 769]),
   ('\u00f2', ['o', Char.ofNat 768]), ('\u00f4', ['o', Char.ofNat 770]),
   ('\u00f5', ['o', Char.ofNat 771]), ('\u00f6', ['o', Char.ofNat 776]),
   ('\u00fa', ['u', Char.ofNat 769]), ('\u00f9', ['u', Char.ofNat 768]),
   ('\u00fb', ['u', Char.ofNat 770]), ('\u00fc', ['u', Char.ofNat 776]),
   ('\u00e7', ['c', Char.ofNat 807]), ('\u00f1', ['n', Char.ofNat 771]),
   ('\u00c1', ['A', Char.ofNat 769]), ('\u00c0', ['A', Char.ofNat 768]),
   ('\u00c2', ['A', Char.ofNat 770]), ('\u00c3', ['A', Char.ofNat 771]),
   ('\u00c9', ['E', Char.ofNat 769]), ('\u00ca', ['E', Char.ofNat 770]),
   ('\u00cd', ['I', Char.ofNat 769]), ('\u00d3', ['O', Char.ofNat 769]),
   ('\u00d4', ['O', Char.ofNat 770]), ('\u00d5', ['O', Char.ofNat 771]),
   ('\u00da', ['U', Char.ofNat 769]), ('\u00c7', ['C', Char.ofNat 807]),
   ('\u00d1', ['N', Char.ofNat 771]), ('\u00ba', ['o']), ('\u00aa', ['a'])]

/-- NFKD decomposition of one character. NFKD fixes every ASCII character;
the table covers the Latin accented letters of the feed (base letter plus
combining mark), and any other non-ASCII character decomposes to itself --
the ASCII filter that always follows removes it either way. -/
def nfkdChar (c : Char) : List Char :=
  if c.toNat < 128 then [c]
  else ((nfkdTable.lookup c).getD [c])

/-- The text-column transform of `clean_and_transform`:
`.str.normalize("NFKD").str.encode("ascii", errors="ignore").str.decode("utf-8")
.str.strip().str.upper()`. -/
def normTxtL (l : List Char) : List Char :=
  (stripL ((l.flatMap nfkdChar).filter (fun c => c.toNat < 128))).map Char.toUpper

/-- The text-column transform on a cell, after `.astype(str)`. -/
def normTextCell (c : Cell) : Cell := Cell.vstr ⟨normTxtL (pyStrL c)⟩

/-- The `valor_venda` transform: `.astype(str)`, comma to dot, `to_numeric`
with `errors="coerce"`. -/
def normValorCell (c : Cell) : Cell :=
  match parseNumL (commaToDotL (pyStrL c)) with
  | some (m, e) => Cell.vnum m e
  | none => Cell.vnull

/-- The `data_coleta` transform: `to_datetime(..., errors="coerce",
dayfirst=True)`. A datetime input is returned unchanged; a numeric input
(epoch interpretation in pandas, unreachable in the modelled flow) and a
missing input coerce to missing. -/
def normDataCell : Cell → Cell
  | Cell.vstr s =>
    match parseDate s with
    | some (y, mo, d) => Cell.vdate y mo d
    | none => Cell.vnull
  | Cell.vdate y mo d => Cell.vdate y mo d
  | Cell.vnum _ _ => Cell.vnull
  | Cell.vnull => Cell.vnull

/-- The `cnpj` transform: `.astype(str).str.replace(r"\D", "", regex=True)` —
keep only the digit characters. -/
def normCnpjCell (c : Cell) : Cell :=
  Cell.vstr ⟨(pyStrL c).filter Char.isDigit⟩

/-- `col.lower().strip()` on one raw header. -/
def lowerStrip (col : String) : String := ⟨stripL (col.data.map Char.toLower)⟩

/-- The per-header rule chain of `detectar_colunas`, in source order. -/
def detectCol (col : String) : Option String :=
  let c := lowerStrip col
  if strContains c "regiao" then some "regiao"
  else if c = "estado - sigla" || c = "uf" || c = "estado" || strContains c "sigla" then
    some "uf"
  else if strContains c "municip" then some "municipio"
  else if strContains c "cnpj" then some "cnpj"
  else if strContains c "revenda" then some "posto_nome"
  else if strContains c "bairro" then some "bairro"
  else if strContains c "produto" then some "produto"
  else if strContains c "data" then some "data_coleta"
  else if strContains c "valor de venda" then some "valor_venda"
  else if strContains c "bandeira" then some "bandeira"
  else none

/-- `detectar_colunas`: the insertion-ordered dict of raw header to canonical
field built by the loop over `df_chunk.columns`. -/
def detectar_colunas (cols : List String) : List (String × String) :=
  cols.filterMap (fun col => (detectCol col).map (fun v => (col, v)))

/-- The fixed canonical field set of the pipeline. -/
def canonicalFields : List String :=
  ["regiao", "uf", "municipio", "posto_nome", "cnpj", "bairro", "produto",
   "data_coleta", "valor_venda", "bandeira"]

/-- A pandas DataFrame: a header list and the rows (cell lists aligned with
the header). -/
structure DataFrame where
  cols : List String
  rows : List (List Cell)
deriving DecidableEq, Repr

/-- Cell of a row at a position (missing when out of range). -/
def getCell : List Cell → Nat → Cell
  | [], _ => Cell.vnull
  | c :: _, 0 => c
  | _ :: t, n + 1 => getCell t n

/-- First position of a column label in a header list. -/
def firstIdx (cols : List String) (n : String) : Option Nat :=
  match cols with
  | [] => none
  | c :: t => if c = n then some 0 else (firstIdx t n).map (· + 1)

/-- `df_chunk[list(colmap.keys())].rename(columns=colmap)`: keep the matched
source columns in order and retitle them with their canonical names. -/
def selectRename (df : DataFrame) (cm : List (String × String)) : DataFrame :=
  ⟨cm.map Prod.snd,
   df.rows.map (fun r => cm.map (fun p =>
     match firstIdx df.cols p.1 with
     | some i => getCell r i
     | none => Cell.vnull))⟩

/-- Pointwise column transform: apply `f` at the cells of the column called
`name`, leave every other column alone. -/
def colF (name : String) (f : Cell → Cell) (c : String) (x : Cell) : Cell :=
  if c = name then f x else x

/-- `df[col] = f(df[col])`: apply a cell transform at every column whose
label is `name`. (The `if col in df.columns` guards of the source are
omitted: on a frame whose rows are aligned with its header, transforming an
absent column is the identity.) -/
def mapCol (df : DataFrame) (name : String) (f : Cell → Cell) : DataFrame :=
  ⟨df.cols, df.rows.map (fun r => List.zipWith (colF name f) df.cols r)⟩

/-- The text columns of `clean_and_transform`, in source order. -/
def texto_cols : List String :=
  ["regiao", "uf", "municipio", "posto_nome", "bairro", "bandeira", "produto"]

/-- The critical fields of the validator. -/
def criticas : List String := ["valor_venda", "produto", "data_coleta"]

/-- The normalization block of `clean_and_transform`: the text-column loop,
then the `valor_venda`, `data_coleta` and `cnpj` transforms. -/
def normalizeStage (df : DataFrame) : DataFrame :=
  let d1 := texto_cols.foldl (fun d c => mapCol d c normTextCell) df
  let d2 := mapCol d1 "valor_venda" normValorCell
  let d3 := mapCol d2 "data_coleta" normDataCell
  mapCol d3 "cnpj" normCnpjCell

/-- `pd.isna` on a cell. -/
def isna : Cell → Bool
  | Cell.vnull => true
  | _ => false

/-- `df.dropna(subset=names)`: drop every row with a missing value in one of
the named columns. -/
def dropnaSubset (df : DataFrame) (names : List String) : DataFrame :=
  ⟨df.cols,
   df.rows.filter (fun r => names.all (fun n =>
     match firstIdx df.cols n with
     | some i => !isna (getCell r i)
     | none => true))⟩

/-- The economic filter `valor_venda > 0.01` on a cell: `m / 10 ^ e > 1/100`.
Any non-numeric cell compares false, as NaN does in pandas. -/
def cellGtCent : Cell → Bool
  | Cell.vnum m e => decide ((10 : Int) ^ e < 100 * m)
  | _ => false

/-- `df[df["valor_venda"] > 0.01]`. -/
def filterValor (df : DataFrame) : DataFrame :=
  ⟨df.cols,
   df.rows.filter (fun r =>
     match firstIdx df.cols "valor_venda" with
     | some i => cellGtCent (getCell r i)
     | none => false)⟩

/-- Fuel-driven worker of `dropDupFirst`; the fuel is an upper bound on the
list length, so the exhaustion branch is unreachable. -/
def dropDupFirstAux {α : Type} [DecidableEq α] : Nat → List α → List α
  | _, [] => []
  | 0, _ :: _ => []
  | n + 1, a :: l => a :: dropDupFirstAux n (l.filter (fun x => x ≠ a))

/-- `df.drop_duplicates()`: keep the first occurrence of each row. -/
def dropDupFirst {α : Type} [DecidableEq α] (l : List α) : List α :=
  dropDupFirstAux l.length l

/-- The empty frame `pd.DataFrame()`. -/
def emptyDF : DataFrame := ⟨[], []⟩

/-- The single-column normal form of the normalization block: what the
sequence of column transforms of `normalizeStage` does at a column named
`c` (each column name is hit by at most one transform). -/
def stageF (c : String) (x : Cell) : Cell :=
  if c = "regiao" then normTextCell x
  else if c = "uf" then normTextCell x
  else if c = "municipio" then normTextCell x
  else if c = "posto_nome" then normTextCell x
  else if c = "bairro" then normTextCell x
  else if c = "bandeira" then normTextCell x
  else if c = "produto" then normTextCell x
  else if c = "valor_venda" then normValorCell x
  else if c = "data_coleta" then normDataCell x
  else if c = "cnpj" then normCnpjCell x
  else x

/-- Is a cell not a datetime? Raw cells coming out of `pd.read_csv` without
`parse_dates` are strings, numbers or missing — never datetimes. -/
def notDate : Cell → Bool
  | Cell.vdate _ _ _ => false
  | _ => true

/-- `clean_and_transform`: empty chunks pass through, an empty column map
yields an empty frame, otherwise select/rename, normalize, drop rows with
missing critical fields, keep `valor_venda > 0.01`, drop duplicates.
`dropna(subset=criticas)` with an absent column raises `KeyError` in pandas,
modelled as the `Except.error` branch. (The local frame variables of the
source are inlined.) -/
def clean_and_transform (df_chunk : DataFrame) : Except String DataFrame :=
  if df_chunk.rows.isEmpty then Except.ok df_chunk
  else if (detectar_colunas df_chunk.cols).isEmpty then Except.ok emptyDF
  else if criticas.all (fun c =>
      (normalizeStage (selectRename df_chunk (detectar_colunas df_chunk.cols))).cols.contains c) then
    Except.ok
      ⟨(filterValor (dropnaSubset
          (normalizeStage (selectRename df_chunk (detectar_colunas df_chunk.cols))) criticas)).cols,
       dropDupFirst (filterValor (dropnaSubset
          (normalizeStage (selectRename df_chunk (detectar_colunas df_chunk.cols))) criticas)).rows⟩
  else Except.error "KeyError"

/-- A recorded `df_limpo.to_sql(..., if_exists=modo)` call. -/
structure WriteOp where
  mode : String
  cols : List String
  rows : List (List Cell)
deriving DecidableEq, Repr

/-- The chunk loop of `run_pipeline_db`: clean each chunk, skip empty
results, write a non-empty result with the current mode and switch the mode
to "append", add its length to the running total; an exception from
`clean_and_transform` is caught by the surrounding `try` and ends the run
with `False`. Returns (success, writes performed, cumulative total). -/
def runGo : List DataFrame → String → List WriteOp → Nat → Bool × List WriteOp × Nat
  | [], _, ws, total => (true, ws, total)
  | chunk :: rest, modo, ws, total =>
    match clean_and_transform chunk with
    | Except.error _ => (false, ws, total)
    | Except.ok df =>
      if df.rows.isEmpty then runGo rest modo ws total
      else runGo rest "append" (ws ++ [⟨modo, df.cols, df.rows⟩]) (total + df.rows.length)

/-- `run_pipeline_db` on the list of chunks read from the CSV: the loop
starts with `modo = "replace"` and a zero total. -/
def run_pipeline_db (chunks : List DataFrame) : Bool × List WriteOp × Nat :=
  runGo chunks "replace" [] 0

/-- Destination-table semantics of a write list, starting from a pre-existing
table: a "replace" write drops and recreates the table, any other mode
appends. -/
def applyWrites (pre : List (List Cell)) (ws : List WriteOp) : List (List Cell) :=
  ws.foldl (fun t w => if w.mode = "replace" then w.rows else t ++ w.rows) pre

/-- Rational value of the decimal pair of a `vnum` cell. -/
def valToRat (m : Int) (e : Nat) : ℚ := (m : ℚ) / 10 ^ e

/-! ### Digit and decimal-string lemmas -/

theorem digitVal_digitChar {d : Nat} (h : d < 10) : digitVal (digitChar d) = d := by
  interval_cases d <;> decide

theorem isDigit_digitChar {d : Nat} (h : d < 10) : (digitChar d).isDigit = true := by
  interval_cases d <;> decide

theorem isDigit_ne_special {c : Char} (h : c.isDigit = true) :
    c ≠ '.' ∧ c ≠ '-' ∧ c ≠ '+' ∧ c ≠ ',' ∧ c ≠ '/' := by
  refine ⟨?_, ?_, ?_, ?_, ?_⟩ <;> intro hc <;> rw [hc] at h <;> exact absurd h (by decide)

theorem foldl_digit_zeros (k : Nat) :
    List.foldl (fun x c => 10 * x + digitVal c) 0 (List.replicate k '0') = 0 := by
  induction k with
  | zero => rfl
  | succ n ih =>
    rw [List.replicate_succ, List.foldl_cons]
    have h : 10 * 0 + digitVal '0' = 0 := by decide
    rw [h]
    exact ih

theorem digitsVal_zeros_append (k : Nat) (l : List Char) :
    digitsVal (List.replicate k '0' ++ l) = digitsVal l := by
  simp only [digitsVal, List.foldl_append, foldl_digit_zeros k]

theorem digitsVal_append_cons (a : List Char) (c : Char) (b : List Char) :
    digitsVal (a ++ c :: b) =
      List.foldl (fun x g => 10 * x + digitVal g) (10 * digitsVal a + digitVal c) b := by
  simp only [digitsVal, List.foldl_append, List.foldl_cons]

theorem foldl_map_digitChar (L : List Nat) (h : ∀ d ∈ L, d < 10) :
    digitsVal ((L.map digitChar).reverse) = Nat.ofDigits 10 L := by
  induction L with
  | nil => rfl
  | cons d t ih =>
    have hd : d < 10 := h d (by simp)
    have ht : ∀ x ∈ t, x < 10 := fun x hx => h x (by simp [hx])
    simp only [List.map_cons, List.reverse_cons]
    have hstep : digitsVal ((t.map digitChar).reverse ++ [digitChar d]) =
        10 * digitsVal ((t.map digitChar).reverse) + d := by
      simp only [digitsVal, List.foldl_append, List.foldl_cons, List.foldl_nil,
        digitVal_digitChar hd]
    rw [hstep, ih ht, Nat.ofDigits_cons]
    omega

theorem digitsVal_natDigits (n : Nat) : digitsVal (natDigits n) = n := by
  have h : ∀ d ∈ Nat.digits 10 n, d < 10 := fun d hd => Nat.digits_lt_base (by norm_num) hd
  have h2 := foldl_map_digitChar (Nat.digits 10 n) h
  rw [Nat.ofDigits_digits] at h2
  rw [natDigits, List.map_reverse]
  exact h2

theorem natDigits_digits (n : Nat) : ∀ c ∈ natDigits n, c.isDigit = true := by
  intro c hc
  rw [natDigits] at hc
  obtain ⟨d, hd, rfl⟩ := List.mem_map.mp hc
  exact isDigit_digitChar (Nat.digits_lt_base (by norm_num) (List.mem_reverse.mp hd))

theorem natStrL_ne_nil (n : Nat) : natStrL n ≠ [] := by
  rw [natStrL]
  split
  · simp
  · rename_i h
    simp only [natDigits, ne_eq, List.map_eq_nil_iff, List.reverse_eq_nil_iff]
    exact Nat.digits_ne_nil_iff_ne_zero.mpr h

theorem natStrL_digits (n : Nat) : ∀ c ∈ natStrL n, c.isDigit = true := by
  intro c hc
  rw [natStrL] at hc
  split at hc
  · simp at hc
    rw [hc]; decide
  · exact natDigits_digits n c hc

theorem digitsVal_natStrL (n : Nat) : digitsVal (natStrL n) = n := by
  rw [natStrL]
  split
  · rename_i h; rw [h]; decide
  · exact digitsVal_natDigits n

/-! ### splitOnChar and parseSign lemmas -/

theorem splitOnChar_sepFree {sep : Char} {l : List Char} (h : ∀ c ∈ l, c ≠ sep) :
    splitOnChar sep l = [l] := by
  induction l with
  | nil => rfl
  | cons c r ih =>
    have hc : c ≠ sep := h c (by simp)
    have hr : ∀ x ∈ r, x ≠ sep := fun x hx => h x (by simp [hx])
    rw [splitOnChar, if_neg hc, ih hr]

theorem splitOnChar_append {sep : Char} {a : List Char} (b : List Char)
    (h : ∀ c ∈ a, c ≠ sep) :
    splitOnChar sep (a ++ sep :: b) = a :: splitOnChar sep b := by
  induction a with
  | nil =>
    simp only [List.nil_append]
    rw [splitOnChar, if_pos rfl]
  | cons c a ih =>
    have hc : c ≠ sep := h c (by simp)
    have ha : ∀ x ∈ a, x ≠ sep := fun x hx => h x (by simp [hx])
    simp only [List.cons_append]
    rw [splitOnChar, if_neg hc, ih ha]

theorem parseSign_other {c : Char} (h1 : c ≠ '-') (h2 : c ≠ '+') (t : List Char) :
    parseSign (c :: t) = (false, c :: t) := by
  unfold parseSign
  split <;> simp_all

/-! ### Numeric parse/print roundtrip -/

theorem parseNumL_allDigits {l : List Char} (h1 : l ≠ [])
    (h2 : ∀ c ∈ l, c.isDigit = true) :
    parseNumL l = some ((digitsVal l : Int), 0) := by
  obtain ⟨c, t, rfl⟩ := List.exists_cons_of_ne_nil h1
  have hc := h2 c (by simp)
  obtain ⟨hdot, hdash, hplus, _, _⟩ := isDigit_ne_special hc
  have hsign : parseSign (c :: t) = (false, c :: t) := parseSign_other hdash hplus t
  have hsplit : splitOnChar '.' (c :: t) = [c :: t] :=
    splitOnChar_sepFree (fun x hx => (isDigit_ne_special (h2 x hx)).1)
  rw [parseNumL, hsign]
  simp only [hsplit]
  rw [if_pos]
  · rfl
  simp only [Bool.and_eq_true, List.isEmpty_cons, Bool.not_false, List.all_eq_true]
  exact ⟨trivial, h2⟩

theorem parseNumL_digitsDot {a b : List Char} (ha : a ≠ [])
    (hda : ∀ c ∈ a, c.isDigit = true) (hdb : ∀ c ∈ b, c.isDigit = true) :
    parseNumL (a ++ '.' :: b) = some ((digitsVal (a ++ b) : Int), b.length) := by
  obtain ⟨c, t, rfl⟩ := List.exists_cons_of_ne_nil ha
  have hc := hda c (by simp)
  obtain ⟨hdot, hdash, hplus, _, _⟩ := isDigit_ne_special hc
  have hsign : parseSign ((c :: t) ++ '.' :: b) = (false, (c :: t) ++ '.' :: b) :=
    parseSign_other hdash hplus _
  have hsplit : splitOnChar '.' ((c :: t) ++ '.' :: b) = (c :: t) :: splitOnChar '.' b :=
    splitOnChar_append b (fun x hx => (isDigit_ne_special (hda x hx)).1)
  have hsplitb : splitOnChar '.' b = [b] :=
    splitOnChar_sepFree (fun x hx => (isDigit_ne_special (hdb x hx)).1)
  rw [parseNumL, hsign]
  simp only [hsplit, hsplitb]
  rw [if_pos]
  · rfl
  simp only [Bool.and_eq_true, List.all_eq_true]
  refine ⟨⟨by simp, fun x hx => hda x hx⟩, hdb⟩

theorem parseNumL_dash_allDigits {l : List Char} (h1 : l ≠ [])
    (h2 : ∀ c ∈ l, c.isDigit = true) :
    parseNumL ('-' :: l) = some (-(digitsVal l : Int), 0) := by
  have hsplit : splitOnChar '.' l = [l] :=
    splitOnChar_sepFree (fun x hx => (isDigit_ne_special (h2 x hx)).1)
  rw [parseNumL]
  have hsign : parseSign ('-' :: l) = (true, l) := rfl
  rw [hsign]
  simp only [hsplit]
  rw [if_pos]
  · rfl
  simp only [Bool.and_eq_true, List.all_eq_true]
  exact ⟨by simpa using h1, h2⟩

theorem parseNumL_dash_digitsDot {a b : List Char} (ha : a ≠ [])
    (hda : ∀ c ∈ a, c.isDigit = true) (hdb : ∀ c ∈ b, c.isDigit = true) :
    parseNumL ('-' :: (a ++ '.' :: b)) = some (-(digitsVal (a ++ b) : Int), b.length) := by
  have hsplit : splitOnChar '.' (a ++ '.' :: b) = a :: splitOnChar '.' b :=
    splitOnChar_append b (fun x hx => (isDigit_ne_special (hda x hx)).1)
  have hsplitb : splitOnChar '.' b = [b] :=
    splitOnChar_sepFree (fun x hx => (isDigit_ne_special (hdb x hx)).1)
  rw [parseNumL]
  have hsign : parseSign ('-' :: (a ++ '.' :: b)) = (true, a ++ '.' :: b) := rfl
  rw [hsign]
  simp only [hsplit, hsplitb]
  rw [if_pos]
  · rfl
  simp only [Bool.and_eq_true, List.all_eq_true]
  exact ⟨⟨by simp [ha], fun x hx => hda x hx⟩, hdb⟩

theorem printNumNL_zero_e (n : Nat) : printNumNL n 0 = natStrL n := by
  rw [printNumNL, if_pos rfl]

theorem printNumNL_pos (n : Nat) {e : Nat} (he : 0 < e) :
    ∃ a b : List Char, printNumNL n e = a ++ '.' :: b ∧ a ≠ [] ∧
      (∀ c ∈ a, c.isDigit = true) ∧ (∀ c ∈ b, c.isDigit = true) ∧
      b.length = e ∧ digitsVal (a ++ b) = n := by
  have hne : e ≠ 0 := Nat.pos_iff_ne_zero.mp he
  have hs1 : 1 ≤ (natStrL n).length :=
    List.length_pos.mpr (natStrL_ne_nil n)
  set s := natStrL n with hs
  set pad := List.replicate (e + 1 - s.length) '0' ++ s with hpad
  have hpadlen : pad.length = (e + 1 - s.length) + s.length := by
    simp [hpad]
  have hple : e + 1 ≤ pad.length := by omega
  have hpaddig : ∀ c ∈ pad, c.isDigit = true := by
    intro c hcmem
    rcases List.mem_append.mp hcmem with hc | hc
    · rw [List.eq_of_mem_replicate hc]; decide
    · exact natStrL_digits n c hc
  refine ⟨pad.take (pad.length - e), pad.drop (pad.length - e), ?_, ?_, ?_, ?_, ?_, ?_⟩
  · rw [printNumNL, if_neg hne]
  · have : (pad.take (pad.length - e)).length = pad.length - e := by
      rw [List.length_take]; omega
    intro hnil
    rw [hnil] at this
    simp at this
    omega
  · exact fun c hc => hpaddig c (List.take_subset _ _ hc)
  · exact fun c hc => hpaddig c (List.drop_subset _ _ hc)
  · rw [List.length_drop]; omega
  · rw [List.take_append_drop]
    rw [hpad, digitsVal_zeros_append, hs, digitsVal_natStrL]

theorem parseNumL_printNumNL (n e : Nat) : parseNumL (printNumNL n e) = some ((n : Int), e) := by
  rcases Nat.eq_zero_or_pos e with he | he
  · subst he
    rw [printNumNL_zero_e]
    rw [parseNumL_allDigits (natStrL_ne_nil n) (natStrL_digits n), digitsVal_natStrL]
  · obtain ⟨a, b, heq, ha, hda, hdb, hblen, hval⟩ := printNumNL_pos n he
    rw [heq, parseNumL_digitsDot ha hda hdb, hval, hblen]

theorem parseNumL_dash_printNumNL (n e : Nat) :
    parseNumL ('-' :: printNumNL n e) = some (-(n : Int), e) := by
  rcases Nat.eq_zero_or_pos e with he | he
  · subst he
    rw [printNumNL_zero_e]
    rw [parseNumL_dash_allDigits (natStrL_ne_nil n) (natStrL_digits n), digitsVal_natStrL]
  · obtain ⟨a, b, heq, ha, hda, hdb, hblen, hval⟩ := printNumNL_pos n he
    rw [heq, parseNumL_dash_digitsDot ha hda hdb, hval, hblen]

theorem parseNumL_printNumL (m : Int) (e : Nat) : parseNumL (printNumL m e) = some (m, e) := by
  rw [printNumL]
  split
  · rename_i hm
    rw [parseNumL_dash_printNumNL]
    have : ((m.natAbs : Int)) = -m := by omega
    rw [this, neg_neg]
  · rename_i hm
    rw [parseNumL_printNumNL]
    have : ((m.natAbs : Int)) = m := by omega
    rw [this]

theorem printNumNL_chars (n e : Nat) : ∀ c ∈ printNumNL n e, c.isDigit = true ∨ c = '.' := by
  intro c hcm
  rcases Nat.eq_zero_or_pos e with he | he
  · subst he
    rw [printNumNL_zero_e] at hcm
    exact Or.inl (natStrL_digits n c hcm)
  · obtain ⟨a, b, heq, _, hda, hdb, _, _⟩ := printNumNL_pos n he
    rw [heq] at hcm
    rcases List.mem_append.mp hcm with hc | hc
    · exact Or.inl (hda c hc)
    · rcases List.mem_cons.mp hc with hc | hc
      · exact Or.inr hc
      · exact Or.inl (hdb c hc)

theorem printNumL_chars (m : Int) (e : Nat) :
    ∀ c ∈ printNumL m e, c.isDigit = true ∨ c = '.' ∨ c = '-' := by
  intro c hcm
  rw [printNumL] at hcm
  split at hcm
  · rcases List.mem_cons.mp hcm with hc | hc
    · exact Or.inr (Or.inr hc)
    · rcases printNumNL_chars _ _ c hc with h | h
      · exact Or.inl h
      · exact Or.inr (Or.inl h)
  · rcases printNumNL_chars _ _ c hcm with h | h
    · exact Or.inl h
    · exact Or.inr (Or.inl h)

theorem commaToDot_printNumL (m : Int) (e : Nat) :
    commaToDotL (printNumL m e) = printNumL m e := by
  rw [commaToDotL]
  rw [List.map_congr_left, List.map_id]
  intro c hcm
  rcases printNumL_chars m e c hcm with h | h | h
  · exact if_neg (isDigit_ne_special h).2.2.2.1
  · rw [h]; decide
  · rw [h]; decide

/-! ### Character case lemmas -/

theorem toUpper_eq_self {c : Char} (h : ¬(c.toNat ≥ 97 ∧ c.toNat ≤ 122)) :
    c.toUpper = c := by
  simp only [Char.toUpper]
  exact if_neg h

theorem toUpper_toUpper (c : Char) : c.toUpper.toUpper = c.toUpper := by
  by_cases h : c.toNat ≥ 97 ∧ c.toNat ≤ 122
  · obtain ⟨h1, h2⟩ := h
    have hc : c = Char.ofNat c.toNat := (Char.ofNat_toNat c).symm
    rw [hc]
    generalize c.toNat = n at h1 h2
    interval_cases n <;> decide
  · rw [toUpper_eq_self h, toUpper_eq_self h]

theorem toNat_toUpper_lt_128 {c : Char} (h : c.toNat < 128) : c.toUpper.toNat < 128 := by
  by_cases hr : c.toNat ≥ 97 ∧ c.toNat ≤ 122
  · obtain ⟨h1, h2⟩ := hr
    have hc : c = Char.ofNat c.toNat := (Char.ofNat_toNat c).symm
    rw [hc]
    generalize c.toNat = n at h1 h2
    interval_cases n <;> decide
  · rw [toUpper_eq_self hr]; exact h

theorem isWhitespace_toUpper (c : Char) : c.toUpper.isWhitespace = c.isWhitespace := by
  by_cases hr : c.toNat ≥ 97 ∧ c.toNat ≤ 122
  · obtain ⟨h1, h2⟩ := hr
    have hc : c = Char.ofNat c.toNat := (Char.ofNat_toNat c).symm
    rw [hc]
    generalize c.toNat = n at h1 h2
    interval_cases n <;> decide
  · rw [toUpper_eq_self hr]

theorem uint32_le_iff {a b : UInt32} : a ≤ b ↔ a.toNat ≤ b.toNat := by
  rw [UInt32.le_def, BitVec.le_def]
  exact Iff.rfl

theorem isLower_eq_decide (c : Char) :
    c.isLower = decide (97 ≤ c.toNat ∧ c.toNat ≤ 122) := by
  simp only [Char.isLower, ge_iff_le, uint32_le_iff, Char.toNat]
  have h1 : UInt32.toNat 97 = 97 := by decide
  have h2 : UInt32.toNat 122 = 122 := by decide
  rw [h1, h2, ← Bool.decide_and]

theorem isLower_toUpper (c : Char) : c.toUpper.isLower = false := by
  by_cases hr : c.toNat ≥ 97 ∧ c.toNat ≤ 122
  · obtain ⟨h1, h2⟩ := hr
    have hc : c = Char.ofNat c.toNat := (Char.ofNat_toNat c).symm
    rw [hc]
    generalize c.toNat = n at h1 h2
    interval_cases n <;> decide
  · rw [toUpper_eq_self hr, isLower_eq_decide]
    simp only [decide_eq_false_iff_not]
    intro h
    exact hr ⟨h.1, h.2⟩

/-! ### Whitespace-strip lemmas -/

theorem stripL_eq_rdrop (l : List Char) :
    stripL l = List.rdropWhile Char.isWhitespace (l.dropWhile Char.isWhitespace) := rfl

theorem dropWhile_eq_self_of_front {α : Type} {p : α → Bool} {X Y : List α}
    (hpre : Y <+: X) (hfix : X.dropWhile p = X) : Y.dropWhile p = Y := by
  cases hy : Y with
  | nil => simp
  | cons a s =>
    obtain ⟨t, ht⟩ := hpre
    rw [hy] at ht
    by_cases hpa : p a
    · exfalso
      rw [← ht, List.cons_append, List.dropWhile_cons_of_pos hpa] at hfix
      have hlen := congrArg List.length hfix
      have hle : (List.dropWhile p (s ++ t)).length ≤ (s ++ t).length :=
        List.Sublist.length_le (List.dropWhile_sublist p)
      simp only [List.length_cons] at hlen
      omega
    · exact List.dropWhile_cons_of_neg hpa

theorem dropWhile_stripL (l : List Char) :
    (stripL l).dropWhile Char.isWhitespace = stripL l := by
  rw [stripL_eq_rdrop]
  exact dropWhile_eq_self_of_front ( List.rdropWhile_prefix _ _)
    (List.dropWhile_idempotent _ _)

theorem rdrop_stripL (l : List Char) :
    List.rdropWhile Char.isWhitespace (stripL l) = stripL l := by
  rw [stripL_eq_rdrop]
  exact List.rdropWhile_idempotent _ _

theorem stripL_of_fix {l : List Char} (h1 : l.dropWhile Char.isWhitespace = l)
    (h2 : List.rdropWhile Char.isWhitespace l = l) : stripL l = l := by
  rw [stripL_eq_rdrop, h1, h2]

theorem stripL_idem (l : List Char) : stripL (stripL l) = stripL l :=
  stripL_of_fix (dropWhile_stripL l) (rdrop_stripL l)

theorem dropWhile_map_toUpper (l : List Char) :
    (l.map Char.toUpper).dropWhile Char.isWhitespace =
      (l.dropWhile Char.isWhitespace).map Char.toUpper := by
  have hcomp : (Char.isWhitespace ∘ Char.toUpper) = Char.isWhitespace :=
    funext isWhitespace_toUpper
  rw [List.dropWhile_map, hcomp]

theorem rdrop_map_toUpper (l : List Char) :
    List.rdropWhile Char.isWhitespace (l.map Char.toUpper) =
      (List.rdropWhile Char.isWhitespace l).map Char.toUpper := by
  rw [List.rdropWhile, List.rdropWhile, ← List.map_reverse, dropWhile_map_toUpper,
    List.map_reverse]

theorem stripL_map_toUpper (l : List Char) :
    stripL (l.map Char.toUpper) = (stripL l).map Char.toUpper := by
  rw [stripL_eq_rdrop, stripL_eq_rdrop, dropWhile_map_toUpper, rdrop_map_toUpper]

theorem stripL_subset (l : List Char) : ∀ c ∈ stripL l, c ∈ l := by
  intro c hc
  rw [stripL_eq_rdrop] at hc
  rw [List.rdropWhile] at hc
  have h1 : c ∈ (l.dropWhile Char.isWhitespace).reverse :=
    List.dropWhile_subset Char.isWhitespace (List.mem_reverse.mp hc)
  exact List.dropWhile_subset _ (List.mem_reverse.mp h1)

/-! ### Text-normalization lemmas -/

theorem nfkdChar_ascii {c : Char} (h : c.toNat < 128) : nfkdChar c = [c] := by
  rw [nfkdChar, if_pos h]

theorem normTxtL_ascii (l : List Char) : ∀ c ∈ normTxtL l, c.toNat < 128 := by
  intro c hc
  rw [normTxtL] at hc
  obtain ⟨c0, hc0, rfl⟩ := List.mem_map.mp hc
  have h1 := stripL_subset _ c0 hc0
  have h2 := List.of_mem_filter h1
  exact toNat_toUpper_lt_128 (by simpa using h2)

theorem normTxtL_upper_fix (l : List Char) :
    (normTxtL l).map Char.toUpper = normTxtL l := by
  rw [normTxtL, List.map_map]
  exact List.map_congr_left (fun c _ => toUpper_toUpper c)

theorem normTxtL_lower_free (l : List Char) : ∀ c ∈ normTxtL l, c.isLower = false := by
  intro c hc
  rw [normTxtL] at hc
  obtain ⟨c0, _, rfl⟩ := List.mem_map.mp hc
  exact isLower_toUpper c0

theorem normTxtL_strip_fix (l : List Char) : stripL (normTxtL l) = normTxtL l := by
  rw [normTxtL, stripL_map_toUpper, stripL_idem]

theorem normTxtL_idem (l : List Char) : normTxtL (normTxtL l) = normTxtL l := by
  have hflat : (normTxtL l).flatMap nfkdChar = normTxtL l := by
    have : ∀ c ∈ normTxtL l, nfkdChar c = [c] :=
      fun c hc => nfkdChar_ascii (normTxtL_ascii l c hc)
    calc (normTxtL l).flatMap nfkdChar
        = (normTxtL l).flatMap (fun c => [c]) := by
          rw [List.flatMap_def, List.flatMap_def]
          exact congrArg List.flatten (List.map_congr_left this)
      _ = normTxtL l := List.flatMap_singleton' _
  have hfil : ((normTxtL l).flatMap nfkdChar).filter (fun c => c.toNat < 128) = normTxtL l := by
    rw [hflat]
    exact List.filter_eq_self.mpr
      (fun c hc => by simpa using normTxtL_ascii l c hc)
  calc normTxtL (normTxtL l)
      = (stripL (((normTxtL l).flatMap nfkdChar).filter (fun c => c.toNat < 128))).map
          Char.toUpper := rfl
    _ = (stripL (normTxtL l)).map Char.toUpper := by rw [hfil]
    _ = (normTxtL l).map Char.toUpper := by rw [normTxtL_strip_fix]
    _ = normTxtL l := normTxtL_upper_fix l

/-! ### Per-field transform lemmas -/

theorem normValorCell_vnull : normValorCell Cell.vnull = Cell.vnull := by decide

theorem normValorCell_vnum (m : Int) (e : Nat) :
    normValorCell (Cell.vnum m e) = Cell.vnum m e := by
  rw [normValorCell]
  show (match parseNumL (commaToDotL (printNumL m e)) with
    | some (m, e) => Cell.vnum m e
    | none => Cell.vnull) = Cell.vnum m e
  rw [commaToDot_printNumL, parseNumL_printNumL]

theorem normValorCell_shape (c : Cell) :
    (∃ m e, normValorCell c = Cell.vnum m e) ∨ normValorCell c = Cell.vnull := by
  rw [normValorCell]
  rcases h : parseNumL (commaToDotL (pyStrL c)) with _ | p
  · exact Or.inr rfl
  · exact Or.inl ⟨p.1, p.2, rfl⟩

theorem normValorCell_idem (c : Cell) :
    normValorCell (normValorCell c) = normValorCell c := by
  rcases normValorCell_shape c with ⟨m, e, h⟩ | h
  · rw [h, normValorCell_vnum]
  · rw [h, normValorCell_vnull]

theorem normValorCell_vstr_of_fail {s : String}
    (h : parseNumL (commaToDotL s.data) = none) :
    normValorCell (Cell.vstr s) = Cell.vnull := by
  rw [normValorCell]
  show (match parseNumL (commaToDotL s.data) with
    | some (m, e) => Cell.vnum m e
    | none => Cell.vnull) = Cell.vnull
  rw [h]

theorem normDataCell_shape (c : Cell) :
    (∃ y mo d, normDataCell c = Cell.vdate y mo d) ∨ normDataCell c = Cell.vnull := by
  rcases c with s | ⟨m, e⟩ | ⟨y, mo, d⟩ | _
  · rw [normDataCell]
    rcases h : parseDate s with _ | ⟨y, mo, d⟩
    · exact Or.inr rfl
    · exact Or.inl ⟨y, mo, d, rfl⟩
  · exact Or.inr rfl
  · exact Or.inl ⟨y, mo, d, rfl⟩
  · exact Or.inr rfl

theorem normDataCell_idem (c : Cell) :
    normDataCell (normDataCell c) = normDataCell c := by
  rcases normDataCell_shape c with ⟨y, mo, d, h⟩ | h
  · rw [h]; rfl
  · rw [h]; rfl

theorem normDataCell_vstr_of_fail {s : String} (h : parseDate s = none) :
    normDataCell (Cell.vstr s) = Cell.vnull := by
  rw [normDataCell, h]

theorem normCnpjCell_idem (c : Cell) :
    normCnpjCell (normCnpjCell c) = normCnpjCell c := by
  rw [normCnpjCell, normCnpjCell]
  show Cell.vstr ⟨((pyStrL c).filter Char.isDigit).filter Char.isDigit⟩ =
    Cell.vstr ⟨(pyStrL c).filter Char.isDigit⟩
  have h : ((pyStrL c).filter Char.isDigit).filter Char.isDigit =
      (pyStrL c).filter Char.isDigit :=
    List.filter_eq_self.mpr (fun a ha => List.of_mem_filter ha)
  rw [h]

theorem normTextCell_idem (c : Cell) :
    normTextCell (normTextCell c) = normTextCell c := by
  rw [normTextCell, normTextCell]
  show Cell.vstr ⟨normTxtL (normTxtL (pyStrL c))⟩ = Cell.vstr ⟨normTxtL (pyStrL c)⟩
  rw [normTxtL_idem]

theorem normTextCell_vnull : normTextCell Cell.vnull = Cell.vstr "NAN" := by decide

/-! ### Date-parse inversion and the economic filter over the rationals -/

theorem parseDate_valid {s : String} {y mo d : Nat}
    (h : parseDate s = some (y, mo, d)) :
    1 ≤ mo ∧ mo ≤ 12 ∧ 1 ≤ d ∧ d ≤ daysInMonth y mo := by
  rw [parseDate] at h
  split at h
  · split at h
    · split at h
      · rename_i hcond
        simp only [Option.some.injEq, Prod.mk.injEq] at h
        obtain ⟨hy, hm, hd⟩ := h
        simp only [Bool.and_eq_true, decide_eq_true_eq] at hcond
        obtain ⟨⟨⟨hm1, hm2⟩, hd1⟩, hd2⟩ := hcond
        subst hy; subst hm; subst hd
        exact ⟨hm1, hm2, hd1, hd2⟩
      · exact absurd h (by simp)
    · exact absurd h (by simp)
  · exact absurd h (by simp)

theorem cellGtCent_vnum {m : Int} {e : Nat}
    (h : cellGtCent (Cell.vnum m e) = true) : (1 : ℚ) / 100 < valToRat m e := by
  rw [cellGtCent, decide_eq_true_eq] at h
  rw [valToRat, div_lt_div_iff₀ (by norm_num) (by positivity)]
  have h2 : ((10 : ℚ)) ^ e < 100 * (m : ℚ) := by exact_mod_cast h
  linarith

theorem cellGtCent_true {c : Cell} (h : cellGtCent c = true) :
    ∃ m e, c = Cell.vnum m e ∧ (1 : ℚ) / 100 < valToRat m e := by
  rcases c with s | ⟨m, e⟩ | ⟨y, mo, d⟩ | _
  · exact absurd h (by simp [cellGtCent])
  · exact ⟨m, e, rfl, cellGtCent_vnum h⟩
  · exact absurd h (by simp [cellGtCent])
  · exact absurd h (by simp [cellGtCent])

/-! ### getCell, firstIdx, zipWith -/

theorem getCell_nil (i : Nat) : getCell [] i = Cell.vnull := by
  cases i <;> rfl

theorem getCell_of_ge {r : List Cell} {i : Nat} (h : r.length ≤ i) :
    getCell r i = Cell.vnull := by
  induction r generalizing i with
  | nil => exact getCell_nil i
  | cons c t ih =>
    cases i with
    | zero => simp at h
    | succ n =>
      show getCell t n = Cell.vnull
      exact ih (by simpa using h)

theorem getCell_getElem {r : List Cell} {i : Nat} {x : Cell}
    (h : r[i]? = some x) : getCell r i = x := by
  induction r generalizing i with
  | nil => simp at h
  | cons c t ih =>
    cases i with
    | zero => simp at h; exact h.symm ▸ rfl
    | succ n =>
      show getCell t n = x
      exact ih (by simpa using h)

theorem getCell_mem_or (r : List Cell) (i : Nat) :
    getCell r i ∈ r ∨ getCell r i = Cell.vnull := by
  rcases Nat.lt_or_ge i r.length with h | h
  · rcases List.getElem?_eq_some_iff.mpr ⟨h, rfl⟩ with hsome
    left
    rw [getCell_getElem hsome]
    exact List.getElem_mem h
  · exact Or.inr (getCell_of_ge h)

theorem firstIdx_spec {cols : List String} {n : String} {i : Nat}
    (h : firstIdx cols n = some i) : cols[i]? = some n := by
  induction cols generalizing i with
  | nil => simp [firstIdx] at h
  | cons c t ih =>
    rw [firstIdx] at h
    split at h
    · rename_i hc
      simp only [Option.some.injEq] at h
      subst h
      simpa using hc
    · rcases Option.map_eq_some'.mp h with ⟨j, hj, rfl⟩
      simpa using ih hj

theorem firstIdx_lt {cols : List String} {n : String} {i : Nat}
    (h : firstIdx cols n = some i) : i < cols.length := by
  have := firstIdx_spec h
  exact (List.getElem?_eq_some_iff.mp this).1

theorem firstIdx_isSome_of_mem {cols : List String} {n : String} (h : n ∈ cols) :
    ∃ i, firstIdx cols n = some i := by
  induction cols with
  | nil => simp at h
  | cons c t ih =>
    by_cases hc : c = n
    · exact ⟨0, by rw [firstIdx, if_pos hc]⟩
    · have hmem : n ∈ t := by
        rcases List.mem_cons.mp h with h1 | h1
        · exact absurd h1.symm hc
        · exact h1
      rcases ih hmem with ⟨j, hj⟩
      refine ⟨j + 1, ?_⟩
      rw [firstIdx, if_neg hc, hj]
      rfl

theorem getCell_zipWith_some {f : String → Cell → Cell} {cols : List String}
    {r : List Cell} {i : Nat} {c : String} {x : Cell}
    (hc : cols[i]? = some c) (hx : r[i]? = some x) :
    getCell (List.zipWith f cols r) i = f c x := by
  induction cols generalizing r i with
  | nil => simp at hc
  | cons c0 t ih =>
    cases r with
    | nil => simp at hx
    | cons x0 rt =>
      cases i with
      | zero =>
        simp only [List.getElem?_cons_zero, Option.some.injEq] at hc hx
        subst hc; subst hx
        rfl
      | succ n =>
        show getCell (List.zipWith f t rt) n = f c x
        exact ih (by simpa using hc) (by simpa using hx)

theorem getCell_zipWith_ge {f : String → Cell → Cell} {cols : List String}
    {r : List Cell} {i : Nat} (h : r.length ≤ i) :
    getCell (List.zipWith f cols r) i = Cell.vnull := by
  apply getCell_of_ge
  calc (List.zipWith f cols r).length = min cols.length r.length :=
        List.length_zipWith f cols r
    _ ≤ r.length := Nat.min_le_right _ _
    _ ≤ i := h

theorem zipWith_zipWith (f g : String → Cell → Cell) (cols : List String) (r : List Cell) :
    List.zipWith f cols (List.zipWith g cols r) =
      List.zipWith (fun c x => f c (g c x)) cols r := by
  induction cols generalizing r with
  | nil => simp
  | cons c t ih =>
    cases r with
    | nil => simp
    | cons x rt => simpa using ih rt

/-! ### Collapsing the normalization block to a pointwise transform -/

theorem zipWith_ext {f g : String → Cell → Cell} (h : ∀ c x, f c x = g c x)
    (cols : List String) (r : List Cell) :
    List.zipWith f cols r = List.zipWith g cols r := by
  induction cols generalizing r with
  | nil => simp
  | cons c t ih =>
    cases r with
    | nil => simp
    | cons x rt => simp [h c x, ih rt]

theorem colF_chain (c : String) (x : Cell) :
    colF "cnpj" normCnpjCell c (colF "data_coleta" normDataCell c
      (colF "valor_venda" normValorCell c (colF "produto" normTextCell c
      (colF "bandeira" normTextCell c (colF "bairro" normTextCell c
      (colF "posto_nome" normTextCell c (colF "municipio" normTextCell c
      (colF "uf" normTextCell c (colF "regiao" normTextCell c x))))))))) = stageF c x := by
  by_cases h1 : c = "regiao"
  · subst h1; simp [colF, stageF]
  by_cases h2 : c = "uf"
  · subst h2; simp [colF, stageF]
  by_cases h3 : c = "municipio"
  · subst h3; simp [colF, stageF]
  by_cases h4 : c = "posto_nome"
  · subst h4; simp [colF, stageF]
  by_cases h5 : c = "bairro"
  · subst h5; simp [colF, stageF]
  by_cases h6 : c = "bandeira"
  · subst h6; simp [colF, stageF]
  by_cases h7 : c = "produto"
  · subst h7; simp [colF, stageF]
  by_cases h8 : c = "valor_venda"
  · subst h8; simp [colF, stageF]
  by_cases h9 : c = "data_coleta"
  · subst h9; simp [colF, stageF]
  by_cases h10 : c = "cnpj"
  · subst h10; simp [colF, stageF]
  simp [colF, stageF, h1, h2, h3, h4, h5, h6, h7, h8, h9, h10]

theorem mapCol_cols (df : DataFrame) (name : String) (f : Cell → Cell) :
    (mapCol df name f).cols = df.cols := rfl

theorem normalizeStage_cols (df : DataFrame) : (normalizeStage df).cols = df.cols := rfl

theorem normalizeStage_rows (df : DataFrame) :
    (normalizeStage df).rows = df.rows.map (fun r => List.zipWith stageF df.cols r) := by
  show (List.map (fun r => List.zipWith (colF "cnpj" normCnpjCell) df.cols r)
    (List.map (fun r => List.zipWith (colF "data_coleta" normDataCell) df.cols r)
    (List.map (fun r => List.zipWith (colF "valor_venda" normValorCell) df.cols r)
    (List.map (fun r => List.zipWith (colF "produto" normTextCell) df.cols r)
    (List.map (fun r => List.zipWith (colF "bandeira" normTextCell) df.cols r)
    (List.map (fun r => List.zipWith (colF "bairro" normTextCell) df.cols r)
    (List.map (fun r => List.zipWith (colF "posto_nome" normTextCell) df.cols r)
    (List.map (fun r => List.zipWith (colF "municipio" normTextCell) df.cols r)
    (List.map (fun r => List.zipWith (colF "uf" normTextCell) df.cols r)
    (List.map (fun r => List.zipWith (colF "regiao" normTextCell) df.cols r)
      df.rows)))))))))) = df.rows.map (fun r => List.zipWith stageF df.cols r)
  simp only [List.map_map]
  apply List.map_congr_left
  intro r _
  simp only [Function.comp_apply]
  rw [zipWith_zipWith, zipWith_zipWith, zipWith_zipWith, zipWith_zipWith, zipWith_zipWith,
    zipWith_zipWith, zipWith_zipWith, zipWith_zipWith, zipWith_zipWith]
  exact zipWith_ext colF_chain df.cols r

theorem stageF_idem (c : String) (x : Cell) : stageF c (stageF c x) = stageF c x := by
  by_cases h1 : c = "regiao"
  · subst h1; simp [stageF, normTextCell_idem]
  by_cases h2 : c = "uf"
  · subst h2; simp [stageF, normTextCell_idem]
  by_cases h3 : c = "municipio"
  · subst h3; simp [stageF, normTextCell_idem]
  by_cases h4 : c = "posto_nome"
  · subst h4; simp [stageF, normTextCell_idem]
  by_cases h5 : c = "bairro"
  · subst h5; simp [stageF, normTextCell_idem]
  by_cases h6 : c = "bandeira"
  · subst h6; simp [stageF, normTextCell_idem]
  by_cases h7 : c = "produto"
  · subst h7; simp [stageF, normTextCell_idem]
  by_cases h8 : c = "valor_venda"
  · subst h8; simp [stageF, normValorCell_idem]
  by_cases h9 : c = "data_coleta"
  · subst h9; simp [stageF, normDataCell_idem]
  by_cases h10 : c = "cnpj"
  · subst h10; simp [stageF, normCnpjCell_idem]
  simp [stageF, h1, h2, h3, h4, h5, h6, h7, h8, h9, h10]

theorem stageF_data (x : Cell) : stageF "data_coleta" x = normDataCell x := by
  simp [stageF]

theorem stageF_texto {c : String} (h : c ∈ texto_cols) (x : Cell) :
    stageF c x = normTextCell x := by
  simp only [texto_cols, List.mem_cons, List.not_mem_nil, or_false] at h
  rcases h with h | h | h | h | h | h | h <;> subst h <;> simp [stageF]

/-! ### selectRename, dropDupFirst, and frame bookkeeping -/

theorem selectRename_cols (df : DataFrame) (cm : List (String × String)) :
    (selectRename df cm).cols = cm.map Prod.snd := rfl

theorem selectRename_row_length {df : DataFrame} {cm : List (String × String)}
    {r : List Cell} (h : r ∈ (selectRename df cm).rows) : r.length = cm.length := by
  rw [selectRename] at h
  obtain ⟨r0, _, rfl⟩ := List.mem_map.mp h
  simp

theorem selectRename_cell {df : DataFrame} {cm : List (String × String)}
    {r : List Cell} (h : r ∈ (selectRename df cm).rows) (i : Nat) :
    (∃ r0 ∈ df.rows, getCell r i ∈ r0) ∨ getCell r i = Cell.vnull := by
  rw [selectRename] at h
  obtain ⟨r0, hr0, rfl⟩ := List.mem_map.mp h
  rcases getCell_mem_or (cm.map (fun p =>
      match firstIdx df.cols p.1 with
      | some j => getCell r0 j
      | none => Cell.vnull)) i with hmem | hnull
  · obtain ⟨p, _, hp⟩ := List.mem_map.mp hmem
    rcases hj : firstIdx df.cols p.1 with _ | j
    · simp only [hj] at hp
      exact Or.inr hp.symm
    · simp only [hj] at hp
      rcases getCell_mem_or r0 j with hm2 | hn2
      · exact Or.inl ⟨r0, hr0, by rw [← hp]; exact hm2⟩
      · rw [← hp, hn2]
        exact Or.inr rfl
  · exact Or.inr hnull

theorem dropDupFirstAux_sublist {α : Type} [DecidableEq α] :
    ∀ (n : Nat) (l : List α), l.length ≤ n → (dropDupFirstAux n l).Sublist l := by
  intro n
  induction n with
  | zero =>
    intro l hl
    rw [List.length_eq_zero.mp (Nat.le_zero.mp hl), dropDupFirstAux]
  | succ k ih =>
    intro l hl
    cases l with
    | nil => rw [dropDupFirstAux]
    | cons a t =>
      rw [dropDupFirstAux]
      refine List.Sublist.cons₂ a ?_
      have h1 : (t.filter (fun x => x ≠ a)).length ≤ k := by
        have := List.length_filter_le (fun x => x ≠ a) t
        simp only [List.length_cons] at hl
        omega
      exact (ih _ h1).trans (List.filter_sublist t)

theorem dropDupFirst_sublist {α : Type} [DecidableEq α] (l : List α) :
    (dropDupFirst l).Sublist l :=
  dropDupFirstAux_sublist l.length l (Nat.le_refl _)

theorem dropDupFirstAux_nodup {α : Type} [DecidableEq α] :
    ∀ (n : Nat) (l : List α), l.length ≤ n → (dropDupFirstAux n l).Nodup := by
  intro n
  induction n with
  | zero =>
    intro l hl
    rw [List.length_eq_zero.mp (Nat.le_zero.mp hl), dropDupFirstAux]
    exact List.nodup_nil
  | succ k ih =>
    intro l hl
    cases l with
    | nil =>
      rw [dropDupFirstAux]
      exact List.nodup_nil
    | cons a t =>
      rw [dropDupFirstAux]
      have h1 : (t.filter (fun x => x ≠ a)).length ≤ k := by
        have := List.length_filter_le (fun x => x ≠ a) t
        simp only [List.length_cons] at hl
        omega
      refine List.nodup_cons.mpr ⟨?_, ih _ h1⟩
      intro hmem
      have h2 := (dropDupFirstAux_sublist k (t.filter (fun x => x ≠ a)) h1).mem hmem
      have h3 := List.of_mem_filter h2
      simp at h3

theorem dropDupFirst_nodup {α : Type} [DecidableEq α] (l : List α) :
    (dropDupFirst l).Nodup :=
  dropDupFirstAux_nodup l.length l (Nat.le_refl _)

theorem dropnaSubset_cols (df : DataFrame) (names : List String) :
    (dropnaSubset df names).cols = df.cols := rfl

theorem filterValor_cols (df : DataFrame) : (filterValor df).cols = df.cols := rfl

theorem mem_dropnaSubset {df : DataFrame} {names : List String} {r : List Cell}
    (h : r ∈ (dropnaSubset df names).rows) :
    r ∈ df.rows ∧ ∀ n ∈ names, ∀ i, firstIdx df.cols n = some i →
      isna (getCell r i) = false := by
  rw [dropnaSubset] at h
  have h1 := List.mem_filter.mp h
  refine ⟨h1.1, ?_⟩
  intro n hn i hi
  have h2 := (List.all_eq_true.mp h1.2) n hn
  rw [hi] at h2
  simpa using h2

theorem mem_filterValor {df : DataFrame} {r : List Cell}
    (h : r ∈ (filterValor df).rows) :
    r ∈ df.rows ∧ ∀ i, firstIdx df.cols "valor_venda" = some i →
      cellGtCent (getCell r i) = true := by
  rw [filterValor] at h
  have h1 := List.mem_filter.mp h
  refine ⟨h1.1, ?_⟩
  intro i hi
  have h2 := h1.2
  rw [hi] at h2
  exact h2

/-! ### clean_and_transform inversion -/

theorem clean_cases {df out : DataFrame} (hok : clean_and_transform df = Except.ok out) :
    (df.rows = [] ∧ out = df) ∨
    (df.rows ≠ [] ∧ detectar_colunas df.cols = [] ∧ out = emptyDF) ∨
    (df.rows ≠ [] ∧ detectar_colunas df.cols ≠ [] ∧
      criticas.all (fun c =>
        (normalizeStage (selectRename df (detectar_colunas df.cols))).cols.contains c) = true ∧
      out = ⟨(filterValor (dropnaSubset
          (normalizeStage (selectRename df (detectar_colunas df.cols))) criticas)).cols,
        dropDupFirst (filterValor (dropnaSubset
          (normalizeStage (selectRename df (detectar_colunas df.cols))) criticas)).rows⟩) := by
  rw [clean_and_transform] at hok
  split at hok
  · rename_i h1
    left
    exact ⟨List.isEmpty_iff.mp h1, (Except.ok.injEq _ _).mp hok |>.symm⟩
  · rename_i h1
    split at hok
    · rename_i h2
      right; left
      exact ⟨fun hc => h1 (by rw [hc]; rfl), List.isEmpty_iff.mp h2,
        (Except.ok.injEq _ _).mp hok |>.symm⟩
    · rename_i h2
      split at hok
      · rename_i h3
        right; right
        refine ⟨fun hc => h1 (by rw [hc]; rfl), fun hc => h2 (by rw [hc]; rfl), h3,
          (Except.ok.injEq _ _).mp hok |>.symm⟩
      · exact absurd hok (by simp)

theorem clean_error_of {df : DataFrame} (hne : df.rows ≠ [])
    (hcm : detectar_colunas df.cols ≠ [])
    (hall : criticas.all (fun c =>
      (normalizeStage (selectRename df (detectar_colunas df.cols))).cols.contains c) = false) :
    clean_and_transform df = Except.error "KeyError" := by
  rw [clean_and_transform]
  have hneg : ¬(criticas.all (fun c =>
      (normalizeStage (selectRename df (detectar_colunas df.cols))).cols.contains c) = true) := by
    rw [hall]
    simp
  rw [if_neg (by simpa using hne), if_neg (by simpa using hcm), if_neg hneg]

theorem clean_ok_of_all {df : DataFrame}
    (hall : criticas.all (fun c =>
      (normalizeStage (selectRename df (detectar_colunas df.cols))).cols.contains c) = true) :
    ∃ out, clean_and_transform df = Except.ok out := by
  rw [clean_and_transform]
  by_cases h1 : df.rows.isEmpty
  · exact ⟨df, by rw [if_pos h1]⟩
  · by_cases h2 : (detectar_colunas df.cols).isEmpty
    · exact ⟨emptyDF, by rw [if_neg h1, if_pos h2]⟩
    · refine ⟨⟨(filterValor (dropnaSubset
          (normalizeStage (selectRename df (detectar_colunas df.cols))) criticas)).cols,
        dropDupFirst (filterValor (dropnaSubset
          (normalizeStage (selectRename df (detectar_colunas df.cols))) criticas)).rows⟩, ?_⟩
      rw [if_neg h1, if_neg h2, if_pos hall]

/-! ### The chunk loop and the destination table -/

theorem runGo_nil (modo : String) (ws : List WriteOp) (total : Nat) :
    runGo [] modo ws total = (true, ws, total) := rfl

theorem runGo_cons_error {c : DataFrame} {e : String}
    (h : clean_and_transform c = Except.error e)
    (rest : List DataFrame) (modo : String) (ws : List WriteOp) (total : Nat) :
    runGo (c :: rest) modo ws total = (false, ws, total) := by
  rw [runGo, h]

theorem runGo_cons_empty {c d : DataFrame} (h : clean_and_transform c = Except.ok d)
    (hd : d.rows = []) (rest : List DataFrame) (modo : String) (ws : List WriteOp)
    (total : Nat) :
    runGo (c :: rest) modo ws total = runGo rest modo ws total := by
  rw [runGo, h]
  simp [hd]

theorem runGo_cons_write {c d : DataFrame} (h : clean_and_transform c = Except.ok d)
    (hd : d.rows ≠ []) (rest : List DataFrame) (modo : String) (ws : List WriteOp)
    (total : Nat) :
    runGo (c :: rest) modo ws total =
      runGo rest "append" (ws ++ [⟨modo, d.cols, d.rows⟩]) (total + d.rows.length) := by
  rw [runGo, h]
  simp only [List.isEmpty_eq_true]
  rw [if_neg hd]

theorem runGo_spec (chunks : List DataFrame) (modo : String) (ws : List WriteOp)
    (total : Nat) :
    ∃ extra : List WriteOp,
      (runGo chunks modo ws total).2.1 = ws ++ extra ∧
      (runGo chunks modo ws total).2.2 = total + (extra.map (fun w => w.rows.length)).sum ∧
      (∀ w ∈ extra, w.rows ≠ []) ∧
      (modo = "replace" → ∀ i w, extra[i]? = some w →
        w.mode = if i = 0 then "replace" else "append") ∧
      (modo = "append" → ∀ w ∈ extra, w.mode = "append") := by
  induction chunks generalizing modo ws total with
  | nil =>
    refine ⟨[], by simp [runGo_nil], by simp [runGo_nil], by simp, ?_, by simp⟩
    intro _ i w hw
    simp at hw
  | cons c rest ih =>
    rcases hc : clean_and_transform c with e | d
    · refine ⟨[], by simp [runGo_cons_error hc], by simp [runGo_cons_error hc], by simp, ?_,
        by simp⟩
      intro _ i w hw
      simp at hw
    · by_cases hd : d.rows = []
      · obtain ⟨extra, h1, h2, h3, h4, h5⟩ := ih modo ws total
        exact ⟨extra, by rw [runGo_cons_empty hc hd]; exact h1,
          by rw [runGo_cons_empty hc hd]; exact h2, h3, h4, h5⟩
      · obtain ⟨extra1, h1, h2, h3, h4, h5⟩ :=
          ih "append" (ws ++ [⟨modo, d.cols, d.rows⟩]) (total + d.rows.length)
        refine ⟨⟨modo, d.cols, d.rows⟩ :: extra1, ?_, ?_, ?_, ?_, ?_⟩
        · rw [runGo_cons_write hc hd, h1, List.append_assoc]
          rfl
        · rw [runGo_cons_write hc hd, h2]
          simp only [List.map_cons, List.sum_cons]
          omega
        · intro w hw
          rcases List.mem_cons.mp hw with hw | hw
          · rw [hw]; exact hd
          · exact h3 w hw
        · intro hrep i w hw
          cases i with
          | zero =>
            simp only [List.getElem?_cons_zero, Option.some.injEq] at hw
            rw [← hw, if_pos rfl]
            exact hrep
          | succ n =>
            have := h5 rfl w (List.getElem?_mem (by simpa using hw))
            rw [this, if_neg (by omega)]
        · intro happ w hw
          rcases List.mem_cons.mp hw with hw | hw
          · rw [hw]; exact happ
          · exact h5 rfl w hw

theorem runGo_all_empty {chunks : List DataFrame}
    (h : ∀ c ∈ chunks, ∃ d, clean_and_transform c = Except.ok d ∧ d.rows = [])
    (modo : String) (ws : List WriteOp) (total : Nat) :
    runGo chunks modo ws total = (true, ws, total) := by
  induction chunks with
  | nil => rfl
  | cons c rest ih =>
    obtain ⟨d, hc, hd⟩ := h c (by simp)
    rw [runGo_cons_empty hc hd]
    exact ih (fun x hx => h x (by simp [hx]))

theorem applyWrites_nil (pre : List (List Cell)) : applyWrites pre [] = pre := rfl

theorem applyWrites_cons (pre : List (List Cell)) (w : WriteOp) (ws : List WriteOp) :
    applyWrites pre (w :: ws) =
      applyWrites (if w.mode = "replace" then w.rows else pre ++ w.rows) ws := rfl

theorem applyWrites_all_append {ws : List WriteOp}
    (h : ∀ w ∈ ws, w.mode = "append") (t : List (List Cell)) :
    applyWrites t ws = t ++ (ws.map (fun w => w.rows)).flatten := by
  induction ws generalizing t with
  | nil => simp [applyWrites_nil]
  | cons w rest ih =>
    have hw : w.mode = "append" := h w (by simp)
    rw [applyWrites_cons, if_neg (by rw [hw]; decide),
      ih (fun x hx => h x (by simp [hx]))]
    simp

theorem count_flatten_ge_two {α : Type} [BEq α] [LawfulBEq α] {L : List (List α)}
    {i j : Nat} {a b : List α} {x : α} (hij : i < j) (hi : L[i]? = some a)
    (hj : L[j]? = some b) (hxa : x ∈ a) (hxb : x ∈ b) :
    2 ≤ List.count x L.flatten := by
  induction L generalizing i j with
  | nil => simp at hi
  | cons h0 t ih =>
    rw [List.flatten_cons, List.count_append]
    cases i with
    | zero =>
      simp only [List.getElem?_cons_zero, Option.some.injEq] at hi
      subst hi
      cases j with
      | zero => omega
      | succ n =>
        have hbt : b ∈ t := List.getElem?_mem (by simpa using hj)
        have h1 : 0 < List.count x h0 := List.count_pos_iff.mpr hxa
        have h2 : 0 < List.count x t.flatten :=
          List.count_pos_iff.mpr (List.mem_flatten_of_mem hbt hxb)
        omega
    | succ n =>
      cases j with
      | zero => omega
      | succ n2 =>
        have := ih (Nat.lt_of_succ_lt_succ hij) (by simpa using hi) (by simpa using hj)
        omega

/-! ### Main-branch row analysis helpers -/

theorem main_row_origin {df : DataFrame} {cm : List (String × String)} {r : List Cell}
    (hr : r ∈ (normalizeStage (selectRename df cm)).rows) :
    ∃ r0 ∈ (selectRename df cm).rows,
      r = List.zipWith stageF (cm.map Prod.snd) r0 := by
  rw [normalizeStage_rows] at hr
  obtain ⟨r0, hr0, rfl⟩ := List.mem_map.mp hr
  exact ⟨r0, hr0, rfl⟩

theorem main_cell_eq {cm : List (String × String)} {r0 : List Cell}
    (hlen : r0.length = cm.length) {i : Nat} {n : String}
    (hn : (cm.map Prod.snd)[i]? = some n) :
    getCell (List.zipWith stageF (cm.map Prod.snd) r0) i = stageF n (getCell r0 i) := by
  have hi : i < cm.length := by
    have h1 := (List.getElem?_eq_some_iff.mp hn).1
    simpa using h1
  have hir : i < r0.length := by omega
  have hx : r0[i]? = some (r0.get ⟨i, hir⟩) := by
    rw [List.getElem?_eq_getElem hir]
    rfl
  rw [getCell_zipWith_some hn hx, getCell_getElem hx]

theorem normDataCell_notDate {x : Cell} (hx : notDate x = true) {y mo d : Nat}
    (h : normDataCell x = Cell.vdate y mo d) :
    1 ≤ mo ∧ mo ≤ 12 ∧ 1 ≤ d ∧ d ≤ daysInMonth y mo := by
  rcases x with s | ⟨m, e⟩ | ⟨y2, mo2, d2⟩ | _
  · rw [normDataCell] at h
    rcases hp : parseDate s with _ | p
    · rw [hp] at h
      exact absurd h (by simp)
    · obtain ⟨y3, mo3, d3⟩ := p
      rw [hp] at h
      simp only [Cell.vdate.injEq] at h
      obtain ⟨hy, hm, hd⟩ := h
      subst hy; subst hm; subst hd
      exact parseDate_valid hp
  · exact absurd h (by simp [normDataCell])
  · exact absurd hx (by simp [notDate])
  · exact absurd h (by simp [normDataCell])

theorem ne_vnull_of_isna {c : Cell} (h : isna c = false) : c ≠ Cell.vnull := by
  intro hc
  rw [hc] at h
  exact absurd h (by decide)

theorem notDate_of_selectRename {df : DataFrame} {cm : List (String × String)}
    {r0 : List Cell} (hr0 : r0 ∈ (selectRename df cm).rows)
    (hraw : ∀ r ∈ df.rows, ∀ c ∈ r, notDate c = true) (i : Nat) :
    notDate (getCell r0 i) = true := by
  rcases selectRename_cell hr0 i with ⟨row, hrow, hmem⟩ | hnull
  · exact hraw row hrow _ hmem
  · rw [hnull]
    decide

theorem mem_criticas_firstIdx {df2 : DataFrame} {n : String}
    (hall : criticas.all (fun c => df2.cols.contains c) = true)
    (hn : n ∈ criticas) : ∃ i, firstIdx df2.cols n = some i := by
  have h1 := List.all_eq_true.mp hall n hn
  exact firstIdx_isSome_of_mem (List.elem_iff.mp h1)

theorem dataFrame_eq {a b : DataFrame} (h1 : a.cols = b.cols) (h2 : a.rows = b.rows) :
    a = b := by
  cases a; cases b; simp_all

theorem detectCol_mem_canonical {col v : String} (h : detectCol col = some v) :
    v ∈ canonicalFields := by
  rw [detectCol] at h
  split_ifs at h <;>
    first
      | exact Option.noConfusion h
      | (injection h with h2; subst h2; decide)

theorem detectar_fst_sublist (cols : List String) :
    ((detectar_colunas cols).map Prod.fst).Sublist cols := by
  induction cols with
  | nil => simp [detectar_colunas]
  | cons c t ih =>
    rw [detectar_colunas, List.filterMap_cons]
    rcases h : detectCol c with _ | v
    · simp only [h, Option.map_none']
      exact List.Sublist.cons c ih
    · simp only [h, Option.map_some', List.map_cons]
      exact List.Sublist.cons₂ c ih

/-- C3: the mapping returned by `detectar_colunas` only targets canonical
fields, and its keys are distinct raw headers taken from the header list (a
sublist); but the claimed injectivity into canonical fields fails — see the
counterexample — so this is the amended statement: multiple raw headers may
map to the same canonical field. -/
theorem spec_c3 (cols : List String) :
    (∀ p ∈ detectar_colunas cols, p.2 ∈ canonicalFields) ∧
    ((detectar_colunas cols).map Prod.fst).Sublist cols := by
  refine ⟨?_, detectar_fst_sublist cols⟩
  intro p hp
  obtain ⟨col, _, hcol⟩ := List.mem_filterMap.mp hp
  rcases hd : detectCol col with _ | v
  · rw [hd] at hcol
    simp at hcol
  · rw [hd] at hcol
    simp only [Option.map_some', Option.some.injEq] at hcol
    rw [← hcol]
    exact detectCol_mem_canonical hd

/-- C3, witness: the amended statement evaluated at a concrete header list. -/
theorem spec_c3_witness :
    ("Valor de Venda", "valor_venda").2 ∈ canonicalFields ∧
    ((detectar_colunas ["Valor de Venda"]).map Prod.fst).Sublist ["Valor de Venda"] :=
  ⟨(spec_c3 ["Valor de Venda"]).1 ("Valor de Venda", "valor_venda") (by decide),
   (spec_c3 ["Valor de Venda"]).2⟩

/-- C3, counterexample: two raw headers both containing "data" are both
mapped to `data_coleta`, so the mapping keeps both and the claimed
"at most one raw header per canonical field" fails. -/
theorem spec_c3_counterexample :
    (detectar_colunas ["Data da Coleta", "Data Possivel"]).map Prod.snd
        = ["data_coleta", "data_coleta"] ∧
    ¬ ((detectar_colunas ["Data da Coleta", "Data Possivel"]).map Prod.snd).Nodup := by
  exact ⟨by decide, by decide⟩

/-- C4, counterexample: the header "Valor" contains the substring "valor"
and matches no rule at all (in particular no higher-priority rule), yet
`detectar_colunas` drops it — the keyword of the source is
"valor de venda", not "valor". -/
theorem spec_c4_counterexample :
    strContains (lowerStrip "Valor") "valor" = true ∧
    detectCol "Valor" = none ∧
    detectar_colunas ["Valor"] = [] := by
  exact ⟨by decide, by decide, by decide⟩

/-- C4, amended: a raw header whose lower-cased trimmed form contains
"valor de venda" (the actual source keyword) and matches none of the
higher-priority rules is mapped to `valor_venda`. -/
theorem spec_c4 (cols : List String) (col : String) (hmem : col ∈ cols)
    (h0 : strContains (lowerStrip col) "valor de venda" = true)
    (h1 : strContains (lowerStrip col) "regiao" = false)
    (h2 : lowerStrip col ≠ "estado - sigla") (h3 : lowerStrip col ≠ "uf")
    (h4 : lowerStrip col ≠ "estado")
    (h5 : strContains (lowerStrip col) "sigla" = false)
    (h6 : strContains (lowerStrip col) "municip" = false)
    (h7 : strContains (lowerStrip col) "cnpj" = false)
    (h8 : strContains (lowerStrip col) "revenda" = false)
    (h9 : strContains (lowerStrip col) "bairro" = false)
    (h10 : strContains (lowerStrip col) "produto" = false)
    (h11 : strContains (lowerStrip col) "data" = false) :
    (col, "valor_venda") ∈ detectar_colunas cols := by
  have hd : detectCol col = some "valor_venda" := by
    rw [detectCol]
    rw [if_neg (by simp [h1]), if_neg (by simp [h2, h3, h4, h5]), if_neg (by simp [h6]),
      if_neg (by simp [h7]), if_neg (by simp [h8]), if_neg (by simp [h9]),
      if_neg (by simp [h10]), if_neg (by simp [h11]), if_pos (by simp [h0])]
  exact List.mem_filterMap.mpr ⟨col, hmem, by rw [hd]; rfl⟩

/-- C4, witness: the amended statement at the actual feed header. -/
theorem spec_c4_witness :
    ("Valor de Venda", "valor_venda") ∈ detectar_colunas ["Valor de Venda"] :=
  spec_c4 ["Valor de Venda"] "Valor de Venda" (by decide) (by decide) (by decide)
    (by decide) (by decide) (by decide) (by decide) (by decide) (by decide)
    (by decide) (by decide) (by decide) (by decide)

/-- C5: the documented normalizations are exact — "3,459" parses to the
number 3.459; "05/03/2024" parses day-first to March 5, 2024; a record under
the header "Valor de Venda" with value "5,29" comes out of
`clean_and_transform` as `valor_venda = 5.29` and is retained (5.29 > 0.01). -/
theorem spec_c5 :
    normValorCell (Cell.vstr "3,459") = Cell.vnum 3459 3 ∧
    valToRat 3459 3 = 3.459 ∧
    normDataCell (Cell.vstr "05/03/2024") = Cell.vdate 2024 3 5 ∧
    detectar_colunas ["Valor de Venda"] = [("Valor de Venda", "valor_venda")] ∧
    clean_and_transform
      ⟨["Produto", "Data da Coleta", "Valor de Venda"],
       [[Cell.vstr "Gasolina", Cell.vstr "05/03/2024", Cell.vstr "5,29"]]⟩ =
      Except.ok
        ⟨["produto", "data_coleta", "valor_venda"],
         [[Cell.vstr "GASOLINA", Cell.vdate 2024 3 5, Cell.vnum 529 2]]⟩ ∧
    valToRat 529 2 = 5.29 ∧
    (1 : ℚ) / 100 < valToRat 529 2 := by
  refine ⟨by decide, by norm_num [valToRat], by decide, by decide, by decide,
    by norm_num [valToRat], by norm_num [valToRat]⟩

/-- C7: normalization is idempotent — each per-field transform is a fixed
point on its own output, and re-running the whole normalization block of
`clean_and_transform` on an already-normalized frame changes nothing. -/
theorem spec_c7 :
    (∀ c, normTextCell (normTextCell c) = normTextCell c) ∧
    (∀ c, normValorCell (normValorCell c) = normValorCell c) ∧
    (∀ c, normDataCell (normDataCell c) = normDataCell c) ∧
    (∀ c, normCnpjCell (normCnpjCell c) = normCnpjCell c) ∧
    (∀ df, normalizeStage (normalizeStage df) = normalizeStage df) := by
  refine ⟨normTextCell_idem, normValorCell_idem, normDataCell_idem, normCnpjCell_idem, ?_⟩
  intro df
  refine dataFrame_eq (normalizeStage_cols _) ?_
  rw [normalizeStage_rows, normalizeStage_rows, normalizeStage_cols, List.map_map]
  apply List.map_congr_left
  intro r _
  simp only [Function.comp_apply]
  rw [zipWith_zipWith]
  exact zipWith_ext stageF_idem df.cols r

/-- C1: every record emitted by `clean_and_transform` satisfies the
critical-field invariant — `valor_venda` is a number greater than 0.01,
`produto` is present (non-null), and `data_coleta` is a successfully parsed
calendar date. The frame is assumed raw (no preparsed datetimes), as frames
read by `pd.read_csv` are. -/
theorem spec_c1 (df out : DataFrame) (hok : clean_and_transform df = Except.ok out)
    (hraw : ∀ r ∈ df.rows, ∀ c ∈ r, notDate c = true)
    (r : List Cell) (hr : r ∈ out.rows) :
    (∃ i, firstIdx out.cols "valor_venda" = some i ∧
      ∃ m e, getCell r i = Cell.vnum m e ∧ (1 : ℚ) / 100 < valToRat m e) ∧
    (∃ i, firstIdx out.cols "produto" = some i ∧ getCell r i ≠ Cell.vnull) ∧
    (∃ i, firstIdx out.cols "data_coleta" = some i ∧
      ∃ y mo d, getCell r i = Cell.vdate y mo d ∧
        1 ≤ mo ∧ mo ≤ 12 ∧ 1 ≤ d ∧ d ≤ daysInMonth y mo) := by
  rcases clean_cases hok with ⟨hemp, hout⟩ | ⟨_, _, hout⟩ | ⟨hne, hcm, hall, hout⟩
  · subst hout
    rw [hemp] at hr
    simp at hr
  · subst hout
    simp [emptyDF] at hr
  · subst hout
    have hr6 : r ∈ (filterValor (dropnaSubset
        (normalizeStage (selectRename df (detectar_colunas df.cols))) criticas)).rows :=
      (dropDupFirst_sublist _).mem hr
    obtain ⟨hr5, hval⟩ := mem_filterValor hr6
    obtain ⟨hr4, hna⟩ := mem_dropnaSubset hr5
    obtain ⟨r0, hr0, hreq⟩ := main_row_origin hr4
    have hlen : r0.length = (detectar_colunas df.cols).length := selectRename_row_length hr0
    obtain ⟨iv, hiv⟩ := mem_criticas_firstIdx hall (by decide : "valor_venda" ∈ criticas)
    obtain ⟨ip, hip⟩ := mem_criticas_firstIdx hall (by decide : "produto" ∈ criticas)
    obtain ⟨idd, hid⟩ := mem_criticas_firstIdx hall (by decide : "data_coleta" ∈ criticas)
    refine ⟨⟨iv, hiv, ?_⟩, ⟨ip, hip, ?_⟩, ⟨idd, hid, ?_⟩⟩
    · exact cellGtCent_true (hval iv hiv)
    · exact ne_vnull_of_isna (hna "produto" (by decide) ip hip)
    · have hnd := hna "data_coleta" (by decide) idd hid
      have hcell : getCell r idd = stageF "data_coleta" (getCell r0 idd) := by
        rw [hreq]
        exact main_cell_eq hlen (firstIdx_spec hid)
      rw [stageF_data] at hcell
      have hnotdate := notDate_of_selectRename hr0 hraw idd
      have hne2 : normDataCell (getCell r0 idd) ≠ Cell.vnull := by
        rw [← hcell]
        exact ne_vnull_of_isna hnd
      rcases normDataCell_shape (getCell r0 idd) with ⟨y, mo, d, hdd⟩ | hnull2
      · have hprops := normDataCell_notDate hnotdate hdd
        exact ⟨y, mo, d, by rw [hcell, hdd], hprops.1, hprops.2.1, hprops.2.2.1, hprops.2.2.2⟩
      · exact absurd hnull2 hne2

/-- C1, witness: the invariant evaluated on a concrete surviving record. -/
theorem spec_c1_witness :
    (∃ i, firstIdx (DataFrame.mk ["produto", "data_coleta", "valor_venda"]
        [[Cell.vstr "GASOLINA", Cell.vdate 2024 3 5, Cell.vnum 529 2]]).cols
        "valor_venda" = some i ∧
      ∃ m e, getCell [Cell.vstr "GASOLINA", Cell.vdate 2024 3 5, Cell.vnum 529 2] i =
          Cell.vnum m e ∧ (1 : ℚ) / 100 < valToRat m e) ∧
    (∃ i, firstIdx (DataFrame.mk ["produto", "data_coleta", "valor_venda"]
        [[Cell.vstr "GASOLINA", Cell.vdate 2024 3 5, Cell.vnum 529 2]]).cols
        "produto" = some i ∧
      getCell [Cell.vstr "GASOLINA", Cell.vdate 2024 3 5, Cell.vnum 529 2] i ≠ Cell.vnull) ∧
    (∃ i, firstIdx (DataFrame.mk ["produto", "data_coleta", "valor_venda"]
        [[Cell.vstr "GASOLINA", Cell.vdate 2024 3 5, Cell.vnum 529 2]]).cols
        "data_coleta" = some i ∧
      ∃ y mo d, getCell [Cell.vstr "GASOLINA", Cell.vdate 2024 3 5, Cell.vnum 529 2] i =
          Cell.vdate y mo d ∧ 1 ≤ mo ∧ mo ≤ 12 ∧ 1 ≤ d ∧ d ≤ daysInMonth y mo) :=
  spec_c1
    ⟨["Produto", "Data da Coleta", "Valor de Venda"],
     [[Cell.vstr "Gasolina", Cell.vstr "05/03/2024", Cell.vstr "5,29"]]⟩
    ⟨["produto", "data_coleta", "valor_venda"],
     [[Cell.vstr "GASOLINA", Cell.vdate 2024 3 5, Cell.vnum 529 2]]⟩
    (by decide) (by decide)
    [Cell.vstr "GASOLINA", Cell.vdate 2024 3 5, Cell.vnum 529 2] (by decide)

/-- C8: value-parsing failures never raise — an unparsable `valor_venda` or
`data_coleta` text degrades the field to missing, a frame whose critical
columns are present always cleans without error, and no record carrying a
missing critical field survives the validator. -/
theorem spec_c8 :
    (∀ s : String, parseNumL (commaToDotL s.data) = none →
      normValorCell (Cell.vstr s) = Cell.vnull) ∧
    (∀ s : String, parseDate s = none → normDataCell (Cell.vstr s) = Cell.vnull) ∧
    (∀ df : DataFrame, criticas.all (fun c =>
        (normalizeStage (selectRename df (detectar_colunas df.cols))).cols.contains c) =
          true →
      ∃ out, clean_and_transform df = Except.ok out) ∧
    (∀ df out, clean_and_transform df = Except.ok out → ∀ r ∈ out.rows,
      ∀ n ∈ criticas, ∀ i, firstIdx out.cols n = some i → getCell r i ≠ Cell.vnull) := by
  refine ⟨fun s h => normValorCell_vstr_of_fail h, fun s h => normDataCell_vstr_of_fail h,
    fun df h => clean_ok_of_all h, ?_⟩
  intro df out hok r hr n hn i hi
  rcases clean_cases hok with ⟨hemp, hout⟩ | ⟨_, _, hout⟩ | ⟨hne, hcm, hall, hout⟩
  · subst hout
    rw [hemp] at hr
    simp at hr
  · subst hout
    simp [emptyDF] at hr
  · subst hout
    have hr6 : r ∈ (filterValor (dropnaSubset
        (normalizeStage (selectRename df (detectar_colunas df.cols))) criticas)).rows :=
      (dropDupFirst_sublist _).mem hr
    obtain ⟨hr5, _⟩ := mem_filterValor hr6
    obtain ⟨_, hna⟩ := mem_dropnaSubset hr5
    exact ne_vnull_of_isna (hna n hn i hi)

/-- C8, witness: the parse-failure conclusions at concrete inputs. -/
theorem spec_c8_witness :
    normValorCell (Cell.vstr "abc") = Cell.vnull ∧
    normDataCell (Cell.vstr "xx/03/2024") = Cell.vnull ∧
    (∃ out, clean_and_transform
      ⟨["Produto", "Data da Coleta", "Valor de Venda"],
       [[Cell.vstr "Etanol", Cell.vstr "06/03/2024", Cell.vstr "3,19"]]⟩ =
        Except.ok out) ∧
    getCell [Cell.vstr "ETANOL", Cell.vdate 2024 3 6, Cell.vnum 319 2] 0 ≠ Cell.vnull :=
  ⟨spec_c8.1 "abc" (by decide), spec_c8.2.1 "xx/03/2024" (by decide),
   spec_c8.2.2.1 _ (by decide),
   spec_c8.2.2.2
     ⟨["Produto", "Data da Coleta", "Valor de Venda"],
      [[Cell.vstr "Etanol", Cell.vstr "06/03/2024", Cell.vstr "3,19"]]⟩
     ⟨["produto", "data_coleta", "valor_venda"],
      [[Cell.vstr "ETANOL", Cell.vdate 2024 3 6, Cell.vnum 319 2]]⟩
     (by decide) [Cell.vstr "ETANOL", Cell.vdate 2024 3 6, Cell.vnum 319 2] (by decide)
     "produto" (by decide) 0 (by decide)⟩

/-- C9: after cleaning, every cell of a mapped text column is a string of
ASCII characters with no lower-case letters and no surrounding whitespace;
a missing source value in a text column becomes the literal string "NAN"
(so a record with missing `produto` still reaches the critical-field check). -/
theorem spec_c9 :
    (normTextCell Cell.vnull = Cell.vstr "NAN") ∧
    (∀ df out, clean_and_transform df = Except.ok out → ∀ r ∈ out.rows,
      ∀ n ∈ texto_cols, ∀ i, firstIdx out.cols n = some i →
        ∃ s : String, getCell r i = Cell.vstr s ∧
          (∀ c ∈ s.data, c.toNat < 128) ∧
          (∀ c ∈ s.data, c.isLower = false) ∧
          stripL s.data = s.data) := by
  refine ⟨normTextCell_vnull, ?_⟩
  intro df out hok r hr n hn i hi
  rcases clean_cases hok with ⟨hemp, hout⟩ | ⟨_, _, hout⟩ | ⟨hne, hcm, hall, hout⟩
  · subst hout
    rw [hemp] at hr
    simp at hr
  · subst hout
    simp [emptyDF] at hr
  · subst hout
    have hr6 : r ∈ (filterValor (dropnaSubset
        (normalizeStage (selectRename df (detectar_colunas df.cols))) criticas)).rows :=
      (dropDupFirst_sublist _).mem hr
    obtain ⟨hr5, _⟩ := mem_filterValor hr6
    obtain ⟨hr4, _⟩ := mem_dropnaSubset hr5
    obtain ⟨r0, hr0, hreq⟩ := main_row_origin hr4
    have hlen : r0.length = (detectar_colunas df.cols).length := selectRename_row_length hr0
    have hcell : getCell r i = stageF n (getCell r0 i) := by
      rw [hreq]
      exact main_cell_eq hlen (firstIdx_spec hi)
    rw [stageF_texto hn] at hcell
    refine ⟨⟨normTxtL (pyStrL (getCell r0 i))⟩, hcell, ?_, ?_, ?_⟩
    · intro c hc
      exact normTxtL_ascii _ c hc
    · intro c hc
      exact normTxtL_lower_free _ c hc
    · exact normTxtL_strip_fix _

/-- C9, witness: a record whose `produto` is missing in the source survives
with `produto = "NAN"`, and the text invariants hold at it. -/
theorem spec_c9_witness :
    ∃ s : String,
      getCell [Cell.vstr "NAN", Cell.vdate 2024 3 5, Cell.vnum 529 2] 0 = Cell.vstr s ∧
      (∀ c ∈ s.data, c.toNat < 128) ∧
      (∀ c ∈ s.data, c.isLower = false) ∧
      stripL s.data = s.data :=
  spec_c9.2
    ⟨["Produto", "Data da Coleta", "Valor de Venda"],
     [[Cell.vnull, Cell.vstr "05/03/2024", Cell.vstr "5,29"]]⟩
    ⟨["produto", "data_coleta", "valor_venda"],
     [[Cell.vstr "NAN", Cell.vdate 2024 3 5, Cell.vnum 529 2]]⟩
    (by decide) [Cell.vstr "NAN", Cell.vdate 2024 3 5, Cell.vnum 529 2] (by decide)
    "produto" (by decide) 0 (by decide)

theorem applyWrites_decomp {pre : List (List Cell)} {w0 : WriteOp} {rest : List WriteOp}
    (h : ∀ w ∈ rest, w.mode = "append") :
    ∃ X, applyWrites pre (w0 :: rest) =
      X ++ (w0.rows ++ (rest.map (fun w => w.rows)).flatten) := by
  rw [applyWrites_cons, applyWrites_all_append h]
  by_cases hm : w0.mode = "replace"
  · rw [if_pos hm]
    exact ⟨[], by simp⟩
  · rw [if_neg hm]
    exact ⟨pre, by simp⟩

/-- C2: in every run, the first committed batch is written with "replace"
and all later ones with "append"; only non-empty cleaned batches are
written; the cumulative total is the sum of the written batch sizes; a run
whose batches all clean to empty performs no write at all and leaves a
pre-existing table untouched; and an empty cleaned batch is skipped without
halting the loop. -/
theorem spec_c2 (chunks : List DataFrame) (pre : List (List Cell)) :
    (∀ i w, (run_pipeline_db chunks).2.1[i]? = some w →
      w.mode = if i = 0 then "replace" else "append") ∧
    (∀ w ∈ (run_pipeline_db chunks).2.1, w.rows ≠ []) ∧
    ((run_pipeline_db chunks).2.2 =
      (((run_pipeline_db chunks).2.1).map (fun w => w.rows.length)).sum) ∧
    ((∀ c ∈ chunks, ∃ d, clean_and_transform c = Except.ok d ∧ d.rows = []) →
      (run_pipeline_db chunks).2.1 = [] ∧ (run_pipeline_db chunks).2.2 = 0 ∧
        (run_pipeline_db chunks).1 = true ∧
        applyWrites pre (run_pipeline_db chunks).2.1 = pre) ∧
    (∀ c d rest modo ws total, clean_and_transform c = Except.ok d → d.rows = [] →
      runGo (c :: rest) modo ws total = runGo rest modo ws total) := by
  obtain ⟨extra, h1, h2, h3, h4, _⟩ := runGo_spec chunks "replace" [] 0
  have hws : (run_pipeline_db chunks).2.1 = extra := by
    rw [run_pipeline_db, h1]
    exact List.nil_append extra
  refine ⟨?_, ?_, ?_, ?_,
    fun c d rest modo ws total hc hd => runGo_cons_empty hc hd rest modo ws total⟩
  · intro i w hw
    rw [hws] at hw
    exact h4 rfl i w hw
  · intro w hw
    rw [hws] at hw
    exact h3 w hw
  · rw [hws, run_pipeline_db, h2]
    simp
  · intro hall
    have hgo := runGo_all_empty hall "replace" [] 0
    rw [run_pipeline_db, hgo]
    exact ⟨rfl, rfl, rfl, applyWrites_nil pre⟩

/-- C2, witness: the write-mode discipline at a concrete two-batch run, the
no-write outcome at a run whose only batch cleans to empty, and the skip
equation at that batch. -/
theorem spec_c2_witness :
    (WriteOp.mk "replace" ["produto", "data_coleta", "valor_venda"]
        [[Cell.vstr "GASOLINA", Cell.vdate 2024 3 5, Cell.vnum 529 2]]).mode =
      (if (0 : Nat) = 0 then "replace" else "append") ∧
    (WriteOp.mk "append" ["produto", "data_coleta", "valor_venda"]
        [[Cell.vstr "ETANOL", Cell.vdate 2024 3 6, Cell.vnum 319 2]]).mode =
      (if (1 : Nat) = 0 then "replace" else "append") ∧
    ((run_pipeline_db [⟨["Foo"], [[Cell.vstr "x"]]⟩]).2.1 = [] ∧
      (run_pipeline_db [⟨["Foo"], [[Cell.vstr "x"]]⟩]).2.2 = 0 ∧
      (run_pipeline_db [⟨["Foo"], [[Cell.vstr "x"]]⟩]).1 = true ∧
      applyWrites [[Cell.vnull]] (run_pipeline_db [⟨["Foo"], [[Cell.vstr "x"]]⟩]).2.1 =
        [[Cell.vnull]]) ∧
    runGo [⟨["Foo"], [[Cell.vstr "x"]]⟩] "replace" [] 0 = runGo [] "replace" [] 0 :=
  ⟨(spec_c2 [⟨["Produto", "Data da Coleta", "Valor de Venda"],
      [[Cell.vstr "Gasolina", Cell.vstr "05/03/2024", Cell.vstr "5,29"]]⟩,
     ⟨["Produto", "Data da Coleta", "Valor de Venda"],
      [[Cell.vstr "Etanol", Cell.vstr "06/03/2024", Cell.vstr "3,19"]]⟩] []).1 0
      (WriteOp.mk "replace" ["produto", "data_coleta", "valor_venda"]
        [[Cell.vstr "GASOLINA", Cell.vdate 2024 3 5, Cell.vnum 529 2]]) (by decide),
   (spec_c2 [⟨["Produto", "Data da Coleta", "Valor de Venda"],
      [[Cell.vstr "Gasolina", Cell.vstr "05/03/2024", Cell.vstr "5,29"]]⟩,
     ⟨["Produto", "Data da Coleta", "Valor de Venda"],
      [[Cell.vstr "Etanol", Cell.vstr "06/03/2024", Cell.vstr "3,19"]]⟩] []).1 1
      (WriteOp.mk "append" ["produto", "data_coleta", "valor_venda"]
        [[Cell.vstr "ETANOL", Cell.vdate 2024 3 6, Cell.vnum 319 2]]) (by decide),
   (spec_c2 [⟨["Foo"], [[Cell.vstr "x"]]⟩] [[Cell.vnull]]).2.2.2.1 (by
      intro c hc
      simp only [List.mem_singleton] at hc
      subst hc
      exact ⟨emptyDF, by decide, rfl⟩),
   (spec_c2 [] []).2.2.2.2 ⟨["Foo"], [[Cell.vstr "x"]]⟩ emptyDF [] "replace" [] 0
     (by decide) rfl⟩

/-- C10: a non-empty chunk whose detected mapping is non-empty but misses a
critical field makes `clean_and_transform` raise (the pandas `KeyError` of
`dropna(subset=...)`), and that exception ends the run: the remaining
batches are not processed and the run returns False. -/
theorem spec_c10 :
    (∀ df : DataFrame, df.rows ≠ [] → detectar_colunas df.cols ≠ [] →
      (∃ f ∈ criticas, f ∉ (detectar_colunas df.cols).map Prod.snd) →
      clean_and_transform df = Except.error "KeyError") ∧
    (∀ c rest modo ws total e, clean_and_transform c = Except.error e →
      runGo (c :: rest) modo ws total = (false, ws, total)) ∧
    (∀ c rest e, clean_and_transform c = Except.error e →
      run_pipeline_db (c :: rest) = (false, [], 0)) := by
  refine ⟨?_, fun c rest modo ws total e h => runGo_cons_error h rest modo ws total, ?_⟩
  · intro df hne hcm ⟨f, hf, hnot⟩
    apply clean_error_of hne hcm
    rcases Bool.eq_false_or_eq_true (criticas.all (fun c =>
        (normalizeStage (selectRename df (detectar_colunas df.cols))).cols.contains c)) with
      hT | hF
    · exact absurd (List.elem_iff.mp (List.all_eq_true.mp hT f hf)) hnot
    · exact hF
  · intro c rest e h
    rw [run_pipeline_db]
    exact runGo_cons_error h rest "replace" [] 0

/-- C10, witness: a chunk whose only detected column is `municipio` (so all
three critical fields are missing) errors out and fails the whole run. -/
theorem spec_c10_witness :
    clean_and_transform ⟨["Municipio"], [[Cell.vstr "Recife"]]⟩ =
      Except.error "KeyError" ∧
    runGo [⟨["Municipio"], [[Cell.vstr "Recife"]]⟩,
      ⟨["Produto"], [[Cell.vstr "Gasolina"]]⟩] "replace" [] 0 = (false, [], 0) ∧
    run_pipeline_db [⟨["Municipio"], [[Cell.vstr "Recife"]]⟩,
      ⟨["Produto"], [[Cell.vstr "Gasolina"]]⟩] = (false, [], 0) :=
  ⟨spec_c10.1 ⟨["Municipio"], [[Cell.vstr "Recife"]]⟩ (by decide) (by decide)
     ⟨"valor_venda", by decide, by decide⟩,
   spec_c10.2.1 ⟨["Municipio"], [[Cell.vstr "Recife"]]⟩
     [⟨["Produto"], [[Cell.vstr "Gasolina"]]⟩] "replace" [] 0 "KeyError" (by decide),
   spec_c10.2.2 ⟨["Municipio"], [[Cell.vstr "Recife"]]⟩
     [⟨["Produto"], [[Cell.vstr "Gasolina"]]⟩] "KeyError" (by decide)⟩

/-- C6: no two records of one cleaned batch are equal (within-batch dedup),
while a record committed by two different writes of the same run appears at
least twice in the destination table (no cross-batch dedup). -/
theorem spec_c6 :
    (∀ df out, clean_and_transform df = Except.ok out → out.rows.Nodup) ∧
    (∀ (chunks : List DataFrame) (pre : List (List Cell)) (i j : Nat)
      (w1 w2 : WriteOp) (r : List Cell), i < j →
      (run_pipeline_db chunks).2.1[i]? = some w1 →
      (run_pipeline_db chunks).2.1[j]? = some w2 →
      r ∈ w1.rows → r ∈ w2.rows →
      2 ≤ List.count r (applyWrites pre (run_pipeline_db chunks).2.1)) := by
  constructor
  · intro df out hok
    rcases clean_cases hok with ⟨hemp, hout⟩ | ⟨_, _, hout⟩ | ⟨_, _, _, hout⟩
    · subst hout
      rw [hemp]
      exact List.nodup_nil
    · subst hout
      exact List.nodup_nil
    · subst hout
      exact dropDupFirst_nodup _
  · intro chunks pre i j w1 w2 r hij hi hj hr1 hr2
    obtain ⟨extra, h1, _, _, h4, _⟩ := runGo_spec chunks "replace" [] 0
    have hws : (run_pipeline_db chunks).2.1 = extra := by
      rw [run_pipeline_db, h1]
      exact List.nil_append extra
    rw [hws] at hi hj ⊢
    cases extra with
    | nil => simp at hi
    | cons w0 rest =>
      have hrest : ∀ w ∈ rest, w.mode = "append" := by
        intro w hw
        obtain ⟨k, hk⟩ := List.getElem?_of_mem hw
        have := h4 rfl (k + 1) w (by simpa using hk)
        rw [this, if_neg (by omega)]
      obtain ⟨X, hX⟩ := applyWrites_decomp hrest
      rw [hX, List.count_append, List.count_append]
      cases i with
      | zero =>
        simp only [List.getElem?_cons_zero, Option.some.injEq] at hi
        rw [← hi] at hr1
        cases j with
        | zero => omega
        | succ n =>
          have hw2 : w2 ∈ rest := List.getElem?_mem (by simpa using hj)
          have hc1 : 0 < List.count r w0.rows := List.count_pos_iff.mpr hr1
          have hc2 : 0 < List.count r (rest.map (fun w => w.rows)).flatten :=
            List.count_pos_iff.mpr
              (List.mem_flatten_of_mem (List.mem_map_of_mem (fun w => w.rows) hw2) hr2)
          omega
      | succ n =>
        cases j with
        | zero => omega
        | succ n2 =>
          have hm1 : (rest.map (fun w => w.rows))[n]? = some w1.rows := by
            rw [List.getElem?_map]
            have hx : rest[n]? = some w1 := by simpa using hi
            rw [hx]
            rfl
          have hm2 : (rest.map (fun w => w.rows))[n2]? = some w2.rows := by
            rw [List.getElem?_map]
            have hx : rest[n2]? = some w2 := by simpa using hj
            rw [hx]
            rfl
          have hge := count_flatten_ge_two (Nat.lt_of_succ_lt_succ hij) hm1 hm2 hr1 hr2
          omega

/-- C6, witness: two identical single-row batches in one run — both rows are
committed and the duplicate appears twice in the table. -/
theorem spec_c6_witness :
    (DataFrame.mk ["produto", "data_coleta", "valor_venda"]
      [[Cell.vstr "GASOLINA", Cell.vdate 2024 3 5, Cell.vnum 529 2]]).rows.Nodup ∧
    2 ≤ List.count [Cell.vstr "GASOLINA", Cell.vdate 2024 3 5, Cell.vnum 529 2]
      (applyWrites []
        (run_pipeline_db
          [⟨["Produto", "Data da Coleta", "Valor de Venda"],
            [[Cell.vstr "Gasolina", Cell.vstr "05/03/2024", Cell.vstr "5,29"]]⟩,
           ⟨["Produto", "Data da Coleta", "Valor de Venda"],
            [[Cell.vstr "Gasolina", Cell.vstr "05/03/2024", Cell.vstr "5,29"]]⟩]).2.1) :=
  ⟨spec_c6.1
     ⟨["Produto", "Data da Coleta", "Valor de Venda"],
      [[Cell.vstr "Gasolina", Cell.vstr "05/03/2024", Cell.vstr "5,29"]]⟩
     ⟨["produto", "data_coleta", "valor_venda"],
      [[Cell.vstr "GASOLINA", Cell.vdate 2024 3 5, Cell.vnum 529 2]]⟩ (by decide),
   spec_c6.2
     [⟨["Produto", "Data da Coleta", "Valor de Venda"],
       [[Cell.vstr "Gasolina", Cell.vstr "05/03/2024", Cell.vstr "5,29"]]⟩,
      ⟨["Produto", "Data da Coleta", "Valor de Venda"],
       [[Cell.vstr "Gasolina", Cell.vstr "05/03/2024", Cell.vstr "5,29"]]⟩] [] 0 1
     (WriteOp.mk "replace" ["produto", "data_coleta", "valor_venda"]
       [[Cell.vstr "GASOLINA", Cell.vdate 2024 3 5, Cell.vnum 529 2]])
     (WriteOp.mk "append" ["produto", "data_coleta", "valor_venda"]
       [[Cell.vstr "GASOLINA", Cell.vdate 2024 3 5, Cell.vnum 529 2]])
     [Cell.vstr "GASOLINA", Cell.vdate 2024 3 5, Cell.vnum 529 2]
     (by decide) (by decide) (by decide) (by decide) (by decide)⟩
